import Mathlib

/-!
Verification of the userfeed-canny-importer script.

Strings are modelled as lists of UTF-16 code units (`List Nat`), matching the
JavaScript view of strings (`charCodeAt`, concatenation, `trim`, `toLowerCase`
restricted to the ASCII fragment exercised here).  External primitives that the
script merely calls — `Math.sin` (inside `pseudoRandom`) and the MD5 digest
(inside `generateItemId`) — are taken as parameters (`sinF`, `md5`): every
claim under study depends only on how the script composes them, never on the
bit-level value they return.  Remote services (Canny, OpenAI) are modelled as
oracles supplying the answer (or an exception) for each call the script makes;
the calls themselves are recorded in a trace so that claims about "zero remote
calls" can be stated.
-/

/-- A JavaScript string as its list of UTF-16 code units. -/
abbrev JsString := List Nat

/-- `interface FeatureRequest` (one CSV row).  `Total Likes` reaches the code
only through `parseInt`, so it is modelled directly as the parsed count. -/
structure FeatureRequest where
  title : JsString
  description : JsString
  status : JsString
  totalLikes : Nat
  requestedBy : JsString
  created_at : JsString
deriving DecidableEq

/-- `interface CannyUser`. -/
structure CannyUser where
  id : JsString
  email : JsString
  name : JsString
deriving DecidableEq

/-- `interface FakeUser` (same shape as `CannyUser` in the source). -/
structure FakeUser where
  id : JsString
  email : JsString
  name : JsString
deriving DecidableEq

/-- `interface ImportState`. -/
structure ImportState where
  cursor : Nat
  importedIds : List JsString
deriving DecidableEq

/-- The two post categories returned by `categorizeRequest`. -/
inductive Cat where
  | feature
  | bug
deriving DecidableEq

/-- `seed.split("").reduce((acc, char) => acc + char.charCodeAt(0), 0)`:
the seed number computed at the top of `shuffleArray`. -/
def charSum (s : JsString) : Nat := s.foldl (fun acc c => acc + c) 0

/-- `pseudoRandom(seed)`: `x = Math.sin(seed) * 10000; return x - Math.floor(x)`.
`sinF` stands for `Math.sin` on the (natural-number) arguments the script
passes; the claims depend only on the surrounding arithmetic. -/
def pseudoRandom (sinF : Nat → ℚ) (seed : Nat) : ℚ :=
  let x := sinF seed * 10000
  x - ⌊x⌋

/-- The in-place double assignment `t = a[m]; a[m] = a[i]; a[i] = t` of
`shuffleArray`.  Out-of-range indices (which never occur in the script's own
calls) leave the list unchanged. -/
def listSwap {α : Type} (a : List α) (m i : Nat) : List α :=
  match a.get? m, a.get? i with
  | some t, some u => (a.set m u).set i t
  | _, _ => a

/-- The `while (m)` loop of `shuffleArray`: with current counter `m+1`,
`i = Math.floor(pseudoRandom(seedNumber + m) * m--)` uses the old counter for
both the seed offset and the scaling, then the decremented counter indexes the
swap. -/
def shuffleGo {α : Type} (sinF : Nat → ℚ) (seedNumber : Nat) : Nat → List α → List α
  | 0, a => a
  | m + 1, a =>
    let i := (⌊pseudoRandom sinF (seedNumber + (m + 1)) * ((m : ℚ) + 1)⌋).toNat
    shuffleGo sinF seedNumber m (listSwap a m i)

/-- `shuffleArray(array, seed)`. -/
def shuffleArray {α : Type} (sinF : Nat → ℚ) (array : List α) (seed : JsString) : List α :=
  shuffleGo sinF (charSum seed) array.length array

/-- Spec-side shuffle, written from the spec's words (§4.4): "Seed = sum of
character codes of the post identifier string.  For `m` counting down from pool
size to 1: compute `i = floor(frac(sin(seed + m) * 10000) * m)`; swap the
elements at positions `m-1` and `i`".  Stated with `Int.fract` for `frac` and
`List.sum` for the character-code sum, to be compared with `shuffleArray`. -/
def specShuffleGo {α : Type} (sinF : Nat → ℚ) (seed : Nat) : Nat → List α → List α
  | 0, a => a
  | m + 1, a =>
    let i := (⌊Int.fract (sinF (seed + (m + 1)) * 10000) * ((m + 1 : Nat) : ℚ)⌋).toNat
    specShuffleGo sinF seed m (listSwap a ((m + 1) - 1) i)

/-- Spec-side voter order: apply the countdown to the whole pool, seeded by the
sum of the post identifier's character codes. -/
def specVoterOrder {α : Type} (sinF : Nat → ℚ) (pool : List α) (postId : JsString) : List α :=
  specShuffleGo sinF postId.sum pool.length pool

/-- ASCII whitespace accepted by JavaScript's `String.prototype.trim` (the
fragment exercised by the claims): TAB, LF, VT, FF, CR, SPACE. -/
def isJsSpace (c : Nat) : Bool :=
  c == 32 || c == 9 || c == 10 || c == 11 || c == 12 || c == 13

/-- `s.trim()`: strip leading and trailing whitespace. -/
def jsTrim (s : JsString) : JsString :=
  ((s.dropWhile isJsSpace).reverse.dropWhile isJsSpace).reverse

/-- `s.toLowerCase()` on the ASCII fragment: map A–Z to a–z. -/
def jsToLower (s : JsString) : JsString :=
  s.map fun c => if 65 ≤ c ∧ c ≤ 90 then c + 32 else c

/-- The code units of the literal "bug". -/
def bugCodes : JsString := [98, 117, 103]

/-- The code units of the literal "yes". -/
def yesCodes : JsString := [121, 101, 115]

/-- The tail of `categorizeRequest`: the model answer `content` (possibly
absent, as `choices[0]?.message.content` may be undefined) goes through
`?.trim().toLowerCase()` and the result is compared with `"bug"`; anything
else, including an absent answer, yields `"feature"`. -/
def categorizeModel (content : Option JsString) : Cat :=
  match content with
  | none => Cat.feature
  | some s => if jsToLower (jsTrim s) = bugCodes then Cat.bug else Cat.feature

/-- The tail of `isValidRequest`:
`content?.trim().toLowerCase() === "yes"`. -/
def isValidModel (content : Option JsString) : Bool :=
  match content with
  | none => false
  | some s => jsToLower (jsTrim s) == yesCodes

/-- The code units of "Enhanced Title: ". -/
def enhancedTitleTag : JsString :=
  [69, 110, 104, 97, 110, 99, 101, 100, 32, 84, 105, 116, 108, 101, 58, 32]

/-- The code units of "Enhanced Description: ". -/
def enhancedDescriptionTag : JsString :=
  [69, 110, 104, 97, 110, 99, 101, 100, 32, 68, 101, 115, 99, 114, 105, 112,
   116, 105, 111, 110, 58, 32]

/-- The code units of "\n\nOriginal title: ". -/
def origTitleTag : JsString :=
  [10, 10, 79, 114, 105, 103, 105, 110, 97, 108, 32, 116, 105, 116, 108, 101,
   58, 32]

/-- The code units of "\nOriginal description: ". -/
def origDescTag : JsString :=
  [10, 79, 114, 105, 103, 105, 110, 97, 108, 32, 100, 101, 115, 99, 114, 105,
   112, 116, 105, 111, 110, 58, 32]

/-- Line terminators not matched by `.` in a JavaScript regex without the `s`
flag: LF, CR, LINE SEPARATOR, PARAGRAPH SEPARATOR. -/
def isLineTerminator (c : Nat) : Bool :=
  c == 10 || c == 13 || c == 8232 || c == 8233

/-- Whether `tag` occurs at the head of `s`. -/
def beginsWith : JsString → JsString → Bool
  | [], _ => true
  | _ :: _, [] => false
  | p :: ps, c :: cs => p == c && beginsWith ps cs

/-- The capture group of `s.match(/<tag>(.+)/)` (with the `s` flag when
`dotAll` is true): at the leftmost position where `tag` matches and at least
one capturable character follows, the greedy `(.+)` captures everything up to
the end of the line (or of the string, under `dotAll`). -/
def firstCapture (tag : JsString) (dotAll : Bool) : JsString → Option JsString
  | [] => none
  | c :: rest =>
    if beginsWith tag (c :: rest) then
      let after := (c :: rest).drop tag.length
      let cap := if dotAll then after else after.takeWhile fun d => !isLineTerminator d
      if cap.isEmpty then firstCapture tag dotAll rest else some cap
    else firstCapture tag dotAll rest

/-- The tail of `enhanceRequest`: given the model answer (possibly absent),
extract the enhanced title (first `/Enhanced Title: (.+)/` capture, falling
back to the original title) and the enhanced description (first
`/Enhanced Description: (.+)/s` capture, falling back to the original
description), and return the record with the new title and with
`` `${enhancedDescription}\n\nOriginal title: ${title}\nOriginal description:
${description}` `` as description. -/
def enhanceRequest (request : FeatureRequest) (enhancedContent : Option JsString) :
    FeatureRequest :=
  let enhancedTitle :=
    (enhancedContent.bind (firstCapture enhancedTitleTag false)).getD request.title
  let enhancedDescription :=
    (enhancedContent.bind (firstCapture enhancedDescriptionTag true)).getD request.description
  { request with
    title := enhancedTitle
    description :=
      enhancedDescription ++ origTitleTag ++ request.title ++ origDescTag ++
        request.description }

/-- `generateItemId(request)`: the MD5 digest of the bare concatenation
`` `${request.title}${request.created_at}` ``.  `md5` stands for the digest
primitive (`crypto.createHash("md5")...`); every claim depends only on the
argument string fed to it. -/
def generateItemId (md5 : JsString → JsString) (request : FeatureRequest) : JsString :=
  md5 (request.title ++ request.created_at)

/-- One outbound service call made while processing a row.  The first three
are OpenAI chat-completion requests (`isValidRequest`, `enhanceRequest`,
`categorizeRequest`); the last three are Canny API requests
(`createOrUpdateUser`, `createPost`, the `votes/create` fetch inside
`addVotes`). -/
inductive Call where
  | aiValidity (title description : JsString)
  | aiEnhance (title description : JsString)
  | aiCategorize (title description : JsString)
  | userCreateOrUpdate (email : JsString)
  | postCreate (category : Cat) (title description createdAt authorId : JsString)
  | voteCreate (postID voterID : JsString)
deriving DecidableEq

/-- Whether a call is one of the three AI-service calls. -/
def Call.isAi : Call → Bool
  | Call.aiValidity _ _ => true
  | Call.aiEnhance _ _ => true
  | Call.aiCategorize _ _ => true
  | _ => false

/-- The answers (or thrown exceptions) the external services give to the calls
a single row can make.  `Except.error` models a rejected `await`. -/
structure RowOracle where
  validAnswer : Except Unit (Option JsString)
  enhanceAnswer : Except Unit (Option JsString)
  categorizeAnswer : Except Unit (Option JsString)
  userAnswer : Except Unit CannyUser
  postAnswer : Except Unit JsString
  voteAnswers : Nat → Except Unit Unit

/-- How the per-row `try` block of `main` ends. -/
inductive RowResult where
  | skippedLocal
  | skippedInvalid
  | skippedRemoteDup (title : JsString) (category : Cat)
  | committed (itemId : JsString) (title : JsString) (category : Cat)
  | failed
deriving DecidableEq

/-- The three non-committing, non-failing outcomes. -/
def RowResult.isSkip : RowResult → Bool
  | RowResult.skippedLocal => true
  | RowResult.skippedInvalid => true
  | RowResult.skippedRemoteDup _ _ => true
  | _ => false

/-- The ItemId pushed by a `committed` outcome, if any. -/
def RowResult.commitId : RowResult → Option JsString
  | RowResult.committed itemId _ _ => some itemId
  | _ => none

/-- The configuration values `main` consults inside the loop.
`maxPosts = none` models a `MAX_POSTS` that parses to NaN (the default
`"Infinity"` does): every `importedPosts >= NaN` comparison is false. -/
structure Config where
  invalidPostsAiFiltering : Bool
  postsAiEnhancement : Bool
  maxPosts : Option Nat
deriving DecidableEq

/-- `if (importedPosts >= maxPosts)`. -/
def capReached : Option Nat → Nat → Bool
  | none, _ => false
  | some k, imported => k ≤ imported

/-- The mutable state of `main`'s loop: the import state (persisted on every
save), the `importedPosts` counter, and the two in-memory sets of existing
post titles. -/
structure LoopState where
  importState : ImportState
  importedPosts : Nat
  existingFeaturePosts : List JsString
  existingBugPosts : List JsString
deriving DecidableEq

/-- The fixed data of one run: the external primitives, the configuration, the
fake-user pool, the CSV rows, and the services' answers for each row index. -/
structure RunCtx where
  sinF : Nat → ℚ
  md5 : JsString → JsString
  cfg : Config
  fakeUsers : List FakeUser
  requests : List FeatureRequest
  oracles : Nat → RowOracle

/-- The `for (const voter of voters)` loop of `addVotes`: one `votes/create`
fetch per voter, in order; a rejected fetch (answer `j` is an error) aborts
the loop with that call already made. -/
def castVotes (postID : JsString) (ans : Nat → Except Unit Unit) :
    List FakeUser → Nat → List Call × Except Unit Unit
  | [], _ => ([], Except.ok ())
  | voter :: rest, j =>
    match ans j with
    | Except.error e => ([Call.voteCreate postID voter.id], Except.error e)
    | Except.ok _ =>
      let r := castVotes postID ans rest (j + 1)
      (Call.voteCreate postID voter.id :: r.1, r.2)

/-- `addVotes(postID, count, fakeUsers)`: shuffle a copy of the pool seeded by
the post id, take the first `count`, and cast one vote per selected voter. -/
def addVotesModel (sinF : Nat → ℚ) (postID : JsString) (count : Nat)
    (fakeUsers : List FakeUser) (ans : Nat → Except Unit Unit) :
    List Call × Except Unit Unit :=
  let shuffledUsers := shuffleArray sinF fakeUsers postID
  let voters := shuffledUsers.take count
  castVotes postID ans voters 0

/-- Lines 441–443 of the loop body: create/update the author, create the post
on the board selected by the category, then add the row's requested votes. -/
def stagePublish (ctx : RunCtx) (request enhancedRequest : FeatureRequest)
    (category : Cat) (orc : RowOracle) : List Call × RowResult :=
  let uCall := Call.userCreateOrUpdate request.requestedBy
  match orc.userAnswer with
  | Except.error _ => ([uCall], RowResult.failed)
  | Except.ok author =>
    let pCall := Call.postCreate category enhancedRequest.title
      enhancedRequest.description request.created_at author.id
    match orc.postAnswer with
    | Except.error _ => ([uCall, pCall], RowResult.failed)
    | Except.ok postID =>
      let votes := addVotesModel ctx.sinF postID request.totalLikes ctx.fakeUsers
        orc.voteAnswers
      match votes.2 with
      | Except.error _ => (uCall :: pCall :: votes.1, RowResult.failed)
      | Except.ok _ =>
        (uCall :: pCall :: votes.1,
          RowResult.committed (generateItemId ctx.md5 request) enhancedRequest.title category)

/-- Lines 426–439: categorize the (possibly enhanced) request, consult the
in-memory title set of the decided category, and either skip an existing title
or publish. -/
def stageCategorize (ctx : RunCtx) (feat bug : List JsString)
    (request enhancedRequest : FeatureRequest) (orc : RowOracle) :
    List Call × RowResult :=
  let cCall := Call.aiCategorize enhancedRequest.title enhancedRequest.description
  match orc.categorizeAnswer with
  | Except.error _ => ([cCall], RowResult.failed)
  | Except.ok content =>
    let category := categorizeModel content
    let existingPosts := if category = Cat.feature then feat else bug
    if enhancedRequest.title ∈ existingPosts then
      ([cCall], RowResult.skippedRemoteDup enhancedRequest.title category)
    else
      let r := stagePublish ctx request enhancedRequest category orc
      (cCall :: r.1, r.2)

/-- Lines 421–424: optionally enhance the request before categorization. -/
def stageEnhance (ctx : RunCtx) (feat bug : List JsString)
    (request : FeatureRequest) (orc : RowOracle) : List Call × RowResult :=
  if ctx.cfg.postsAiEnhancement then
    let eCall := Call.aiEnhance request.title request.description
    match orc.enhanceAnswer with
    | Except.error _ => ([eCall], RowResult.failed)
    | Except.ok content =>
      let r := stageCategorize ctx feat bug request (enhanceRequest request content) orc
      (eCall :: r.1, r.2)
  else stageCategorize ctx feat bug request request orc

/-- Lines 410–453 after the local ItemId check: the `try` block, starting with
the optional validity filter. -/
def processRowBody (ctx : RunCtx) (feat bug : List JsString)
    (request : FeatureRequest) (orc : RowOracle) : List Call × RowResult :=
  if ctx.cfg.invalidPostsAiFiltering then
    let vCall := Call.aiValidity request.title request.description
    match orc.validAnswer with
    | Except.error _ => ([vCall], RowResult.failed)
    | Except.ok content =>
      if isValidModel content then
        let r := stageEnhance ctx feat bug request orc
        (vCall :: r.1, r.2)
      else ([vCall], RowResult.skippedInvalid)
  else stageEnhance ctx feat bug request orc

/-- Lines 400–453: one iteration of the loop body for a selected row — the
local ItemId check, then the `try` block. -/
def processRow (ctx : RunCtx) (st : LoopState) (request : FeatureRequest)
    (orc : RowOracle) : List Call × RowResult :=
  let itemId := generateItemId ctx.md5 request
  if itemId ∈ st.importState.importedIds then ([], RowResult.skippedLocal)
  else processRowBody ctx st.existingFeaturePosts st.existingBugPosts request orc

/-- `Set.prototype.add` on the title sets, modelled on lists. -/
def setAdd (l : List JsString) (x : JsString) : List JsString :=
  if x ∈ l then l else l ++ [x]

/-- Lines 446–450: the state mutations performed on a committed row (add the
title to the consulted set, bump the counter, push the ItemId, advance the
cursor, save); every other outcome leaves the state untouched. -/
def applyResult (st : LoopState) (i : Nat) : RowResult → LoopState
  | RowResult.committed itemId title category =>
    { importState :=
        { cursor := i + 1
          importedIds := st.importState.importedIds ++ [itemId] }
      importedPosts := st.importedPosts + 1
      existingFeaturePosts :=
        if category = Cat.feature then setAdd st.existingFeaturePosts title
        else st.existingFeaturePosts
      existingBugPosts :=
        if category = Cat.bug then setAdd st.existingBugPosts title
        else st.existingBugPosts }
  | _ => st

/-- The record kept for each row iteration the loop actually entered. -/
structure RowLog where
  index : Nat
  request : FeatureRequest
  stateBefore : LoopState
  calls : List Call
  result : RowResult
  stateAfter : LoopState
deriving DecidableEq

/-- The `for (let i = importState.cursor; ...)` loop over the remaining
`(index, row)` pairs: stop (a plain `break`, not an error) once
`importedPosts >= maxPosts`, otherwise process the row and fold its outcome
into the state. -/
def mainLoopGo (ctx : RunCtx) : List (Nat × FeatureRequest) → LoopState →
    List RowLog × LoopState
  | [], st => ([], st)
  | (i, request) :: rest, st =>
    if capReached ctx.cfg.maxPosts st.importedPosts then ([], st)
    else
      let pr := processRow ctx st request (ctx.oracles i)
      let st' := applyResult st i pr.2
      let res := mainLoopGo ctx rest st'
      ({ index := i, request := request, stateBefore := st, calls := pr.1,
         result := pr.2, stateAfter := st' } :: res.1, res.2)

/-- Lines 388–454: initialize `importedPosts` to the number of ids already
recorded, then run the loop from `importState.cursor`.  The two title
sets are the per-category `RemoteDuplicateIndex`, fetched from the remote
boards just before the loop.  The final `LoopState.importState` is also the
persisted one: the file is rewritten exactly at each commit, so at the end of
a run the file holds the in-memory state (or the untouched initial file when
nothing committed). -/
def initState (existingFeaturePosts existingBugPosts : List JsString)
    (importState : ImportState) : LoopState :=
  { importState := importState
    importedPosts := importState.importedIds.length
    existingFeaturePosts := existingFeaturePosts
    existingBugPosts := existingBugPosts }

def mainRun (ctx : RunCtx) (existingFeaturePosts existingBugPosts : List JsString)
    (importState : ImportState) : List RowLog × LoopState :=
  mainLoopGo ctx (ctx.requests.enum.drop importState.cursor)
    (initState existingFeaturePosts existingBugPosts importState)

/-- The ItemIds of the committed rows of a log, in order. -/
def committedList (logs : List RowLog) : List JsString :=
  logs.filterMap fun e => e.result.commitId

/-- Pointwise containment of the grow-only parts of the loop state. -/
def SubState (st st' : LoopState) : Prop :=
  st.importState.importedIds ⊆ st'.importState.importedIds ∧
  st.existingFeaturePosts ⊆ st'.existingFeaturePosts ∧
  st.existingBugPosts ⊆ st'.existingBugPosts

/-! Concrete instances used by the closed witnesses and counterexamples. -/

/-- A constant stand-in for `Math.sin` on concrete inputs. -/
def sinF0 : Nat → ℚ := fun _ => 0

/-- An identity stand-in for the MD5 primitive on concrete inputs (only the
argument string fed to the digest matters to the claims). -/
def md5id : JsString → JsString := fun s => s

/-- Vote answers that always succeed. -/
def ansOk : Nat → Except Unit Unit := fun _ => Except.ok ()

/-- A three-voter pool with pairwise distinct identities. -/
def poolABC : List FakeUser :=
  [{ id := [65], email := [97], name := [65] },
   { id := [66], email := [98], name := [66] },
   { id := [67], email := [99], name := [67] }]

/-- The code units of the post identifier "p1". -/
def p1Codes : JsString := [112, 49]

/-- Oracle answers where every service call succeeds: validity "yes",
no parseable enhancement, an unparseable category answer (hence "feature"). -/
def okOracle : RowOracle :=
  { validAnswer := Except.ok (some yesCodes)
    enhanceAnswer := Except.ok none
    categorizeAnswer := Except.ok none
    userAnswer := Except.ok { id := [117], email := [], name := [] }
    postAnswer := Except.ok [112]
    voteAnswers := ansOk }

/-- Oracle answers where `posts/create` rejects. -/
def postFailOracle : RowOracle :=
  { okOracle with postAnswer := Except.error () }

/-- Row with title "a", created_at "1" (ItemId input "a1"), no likes. -/
def rowA : FeatureRequest :=
  { title := [97], description := [], status := [], totalLikes := 0,
    requestedBy := [], created_at := [49] }

/-- Row with title "b", created_at "2" (ItemId input "b2"), no likes. -/
def rowB : FeatureRequest :=
  { title := [98], description := [], status := [], totalLikes := 0,
    requestedBy := [], created_at := [50] }

/-- Configuration with both AI toggles off and `MAX_POSTS` left at its
NaN-parsing default. -/
def cfg0 : Config := { invalidPostsAiFiltering := false, postsAiEnhancement := false,
                       maxPosts := none }

/-- A run context over the concrete primitives with an empty voter pool. -/
def ctxOf (cfg : Config) (requests : List FeatureRequest)
    (oracles : Nat → RowOracle) : RunCtx :=
  { sinF := sinF0, md5 := md5id, cfg := cfg, fakeUsers := [],
    requests := requests, oracles := oracles }

/-- Row with title "t" and description "d", for the enhancer claims. -/
def rowT : FeatureRequest :=
  { title := [116], description := [100], status := [], totalLikes := 0,
    requestedBy := [], created_at := [] }

/-- The code units of "zzz": a model answer with no parseable tag. -/
def zzzCodes : JsString := [122, 122, 122]

/-- The code units of " bug ". -/
def spaceBugCodes : JsString := [32, 98, 117, 103, 32]

/-- The code units of "maybe". -/
def maybeCodes : JsString := [109, 97, 121, 98, 101]

/-- The code units of "Bug!!". -/
def bugBangCodes : JsString := [66, 117, 103, 33, 33]

/-- Row with title "ab", created_at "c": ItemId input "abc". -/
def rowAB : FeatureRequest :=
  { title := [97, 98], description := [], status := [], totalLikes := 0,
    requestedBy := [], created_at := [99] }

/-- Row with title "a", created_at "bc": the same ItemId input "abc" as
`rowAB` although title and created_at both differ. -/
def rowABC : FeatureRequest :=
  { title := [97], description := [], status := [], totalLikes := 0,
    requestedBy := [], created_at := [98, 99] }

/-- The run context for the ItemId-collision scenario, over an arbitrary
digest primitive. -/
def ctxCollision (md5 : JsString → JsString) : RunCtx :=
  { sinF := sinF0, md5 := md5, cfg := cfg0, fakeUsers := [],
    requests := [rowAB, rowABC], oracles := fun _ => okOracle }

/-- A run over the single row `rowA` with all-succeeding oracles. -/
def ctxOne : RunCtx := ctxOf cfg0 [rowA] fun _ => okOracle

/-- The loop state at `rowA` when its ItemId "a1" is already imported. -/
def stLocal : LoopState :=
  { importState := { cursor := 0, importedIds := [[97, 49]] }
    importedPosts := 1, existingFeaturePosts := [], existingBugPosts := [] }

/-- The expected log entry for a locally skipped `rowA`. -/
def eLocal : RowLog :=
  { index := 0, request := rowA, stateBefore := stLocal, calls := [],
    result := RowResult.skippedLocal, stateAfter := stLocal }

/-- The loop state at `rowA` when the feature board already has its title. -/
def stDup : LoopState :=
  { importState := { cursor := 0, importedIds := [] }
    importedPosts := 0, existingFeaturePosts := [[97]], existingBugPosts := [] }

/-- The expected log entry for a remote-duplicate-skipped `rowA`. -/
def eDup : RowLog :=
  { index := 0, request := rowA, stateBefore := stDup,
    calls := [Call.aiCategorize [97] []],
    result := RowResult.skippedRemoteDup [97] Cat.feature, stateAfter := stDup }

/-- Two rows where the first one's `posts/create` rejects and the second
succeeds. -/
def ctxFail : RunCtx :=
  ctxOf cfg0 [rowA, rowB] fun i => if i == 0 then postFailOracle else okOracle

/-- A single row whose `posts/create` rejects. -/
def ctxFail1 : RunCtx := ctxOf cfg0 [rowA] fun _ => postFailOracle

/-- Two eligible rows, no cap (`MAX_POSTS` left at its NaN default). -/
def ctxTwo : RunCtx := ctxOf cfg0 [rowA, rowB] fun _ => okOracle

/-- Configuration with `MAX_POSTS = 1` and both AI toggles off. -/
def cfgCap : Config :=
  { invalidPostsAiFiltering := false, postsAiEnhancement := false,
    maxPosts := some 1 }

/-- Two eligible rows under a cap of one post. -/
def ctxCap : RunCtx := ctxOf cfgCap [rowA, rowB] fun _ => okOracle

/-- The loop state at the start of a fresh run with empty boards. -/
def stFresh : LoopState :=
  { importState := { cursor := 0, importedIds := [] }
    importedPosts := 0, existingFeaturePosts := [], existingBugPosts := [] }

/-- The expected log entry for `rowA` failing at `posts/create`. -/
def eFail1 : RowLog :=
  { index := 0, request := rowA, stateBefore := stFresh,
    calls := [Call.aiCategorize [97] [], Call.userCreateOrUpdate [],
      Call.postCreate Cat.feature [97] [] [49] [117]],
    result := RowResult.failed, stateAfter := stFresh }

/-- Row with the same title "a" as `rowA` but created_at "2". -/
def rowA2 : FeatureRequest :=
  { title := [97], description := [], status := [], totalLikes := 0,
    requestedBy := [], created_at := [50] }

/-- Two rows with equal titles: the first commits, the second is a remote
duplicate within the first run and again on every replay. -/
def ctxRepeat : RunCtx := ctxOf cfg0 [rowA, rowA2] fun _ => okOracle

theorem charSum_eq_sum (s : JsString) : charSum s = s.sum := by
  suffices h : ∀ n : Nat, s.foldl (fun acc c => acc + c) n = n + s.sum by
    simpa using h 0
  induction s with
  | nil => intro n; simp [charSum]
  | cons c cs ih => intro n; simp [List.foldl_cons, ih, List.sum_cons]; ring

theorem pseudoRandom_eq_fract (sinF : Nat → ℚ) (seed : Nat) :
    pseudoRandom sinF seed = Int.fract (sinF seed * 10000) := rfl

theorem shuffleGo_eq_specShuffleGo {α : Type} (sinF : Nat → ℚ) (seed : Nat) :
    ∀ (m : Nat) (a : List α), shuffleGo sinF seed m a = specShuffleGo sinF seed m a := by
  intro m
  induction m with
  | zero => intro a; rfl
  | succ m ih =>
    intro a
    simp only [shuffleGo, specShuffleGo, pseudoRandom_eq_fract, Nat.add_sub_cancel]
    rw [ih]
    norm_num

/-- C1: the Vote Simulator's voter order is computed exactly by the specified
algorithm — the seed is the sum of the character codes of the post identifier,
and each countdown step swaps position `m-1` with
`floor(frac(sin(seed+m)*10000)*m)`.  `shuffleArray` (translated from the code)
coincides with `specVoterOrder` (written from the spec's words) on every pool
and post identifier; determinism of repeated invocations is immediate since
the shuffle is a pure function of the pool and the post identifier (the script
shuffles a copy `[...fakeUsers]`, so the pool itself is never mutated). -/
theorem shuffleArray_matches_spec {α : Type} (sinF : Nat → ℚ)
    (pool : List α) (postId : JsString) :
    shuffleArray sinF pool postId = specVoterOrder sinF pool postId := by
  unfold shuffleArray specVoterOrder
  rw [charSum_eq_sum, shuffleGo_eq_specShuffleGo]

theorem set_perm_cons {α : Type} (xs : List α) :
    ∀ (j : Nat) (u x : α), xs.get? j = some u →
      List.Perm (u :: xs.set j x) (x :: xs) := by
  induction xs with
  | nil => intro j u x h; simp at h
  | cons y ys ih =>
    intro j u x h
    cases j with
    | zero =>
      rw [List.get?_cons_zero, Option.some_inj] at h
      subst h
      simpa using List.Perm.swap x y ys
    | succ j =>
      rw [List.get?_cons_succ] at h
      have step1 : List.Perm (u :: y :: ys.set j x) (y :: u :: ys.set j x) :=
        List.Perm.swap y u _
      have step2 : List.Perm (y :: u :: ys.set j x) (y :: x :: ys) :=
        List.Perm.cons y (ih j u x h)
      have step3 : List.Perm (y :: x :: ys) (x :: y :: ys) := List.Perm.swap x y ys
      exact List.Perm.trans (List.Perm.trans step1 step2) step3

theorem listSwap_cons_succ_succ {α : Type} (x : α) (xs : List α) (n j : Nat) :
    listSwap (x :: xs) (n + 1) (j + 1) = x :: listSwap xs n j := by
  unfold listSwap
  rw [List.get?_cons_succ, List.get?_cons_succ]
  cases xs.get? n <;> cases xs.get? j <;> rfl

theorem listSwap_perm {α : Type} (a : List α) :
    ∀ m i, List.Perm (listSwap a m i) a := by
  induction a with
  | nil => intro m i; exact List.Perm.refl _
  | cons x xs ih =>
    intro m i
    cases m with
    | zero =>
      cases i with
      | zero => exact List.Perm.refl _
      | succ j =>
        unfold listSwap
        rw [List.get?_cons_zero, List.get?_cons_succ]
        cases hj : xs.get? j with
        | none => exact List.Perm.refl _
        | some u => exact set_perm_cons xs j u x hj
    | succ n =>
      cases i with
      | zero =>
        unfold listSwap
        rw [List.get?_cons_zero, List.get?_cons_succ]
        cases hn : xs.get? n with
        | none => exact List.Perm.refl _
        | some t => exact set_perm_cons xs n t x hn
      | succ j =>
        rw [listSwap_cons_succ_succ]
        exact List.Perm.cons x (ih n j)

theorem shuffleGo_perm {α : Type} (sinF : Nat → ℚ) (seed : Nat) :
    ∀ (m : Nat) (a : List α), List.Perm (shuffleGo sinF seed m a) a := by
  intro m
  induction m with
  | zero => intro a; exact List.Perm.refl a
  | succ m ih =>
    intro a
    exact List.Perm.trans (ih _) (listSwap_perm a m _)

theorem shuffleArray_perm {α : Type} (sinF : Nat → ℚ) (array : List α)
    (seed : JsString) : List.Perm (shuffleArray sinF array seed) array :=
  shuffleGo_perm sinF (charSum seed) array.length array

theorem castVotes_ok (postID : JsString) (ans : Nat → Except Unit Unit)
    (hans : ∀ j, ans j = Except.ok ()) :
    ∀ (voters : List FakeUser) (j : Nat),
      castVotes postID ans voters j =
        (voters.map fun v => Call.voteCreate postID v.id, Except.ok ()) := by
  intro voters
  induction voters with
  | nil => intro j; rfl
  | cons v vs ih =>
    intro j
    simp only [castVotes, hans j, ih (j + 1), List.map_cons]

/-- C7: for every post, pool and requested vote count, the Vote Simulator
(when no vote call fails) casts exactly `min(count, poolSize)` votes, one
`votes/create` call per selected voter, the voters being the first `count`
elements of the shuffled pool order; when the pool has no duplicate voters,
no voter is selected twice for the same post. -/
theorem addVotes_casts_min_distinct (sinF : Nat → ℚ) (postID : JsString)
    (count : Nat) (fakeUsers : List FakeUser) (ans : Nat → Except Unit Unit)
    (hans : ∀ j, ans j = Except.ok ()) (hnd : fakeUsers.Nodup) :
    (addVotesModel sinF postID count fakeUsers ans).2 = Except.ok () ∧
    (addVotesModel sinF postID count fakeUsers ans).1 =
      ((shuffleArray sinF fakeUsers postID).take count).map
        (fun v => Call.voteCreate postID v.id) ∧
    (addVotesModel sinF postID count fakeUsers ans).1.length =
      min count fakeUsers.length ∧
    ((shuffleArray sinF fakeUsers postID).take count).Nodup := by
  have hcast := castVotes_ok postID ans hans
    ((shuffleArray sinF fakeUsers postID).take count) 0
  have hperm := shuffleArray_perm sinF fakeUsers postID
  refine ⟨?_, ?_, ?_, ?_⟩
  · simp [addVotesModel, hcast]
  · simp [addVotesModel, hcast]
  · simp [addVotesModel, hcast, List.length_take, hperm.length_eq]
  · exact List.Nodup.sublist (List.take_sublist _ _) (hperm.symm.nodup hnd)

/-- Witness for C7 at a concrete input: three distinct voters, post id "p1",
two requested votes, all vote calls succeeding. -/
theorem addVotes_casts_min_distinct_witness :
    ((∀ j, ansOk j = Except.ok ()) ∧ poolABC.Nodup) ∧
    ((addVotesModel sinF0 p1Codes 2 poolABC ansOk).2 = Except.ok () ∧
     (addVotesModel sinF0 p1Codes 2 poolABC ansOk).1 =
       ((shuffleArray sinF0 poolABC p1Codes).take 2).map
         (fun v => Call.voteCreate p1Codes v.id) ∧
     (addVotesModel sinF0 p1Codes 2 poolABC ansOk).1.length =
       min 2 poolABC.length ∧
     ((shuffleArray sinF0 poolABC p1Codes).take 2).Nodup) :=
  ⟨⟨fun _ => rfl, by decide⟩,
    addVotes_casts_min_distinct sinF0 p1Codes 2 poolABC ansOk
      (fun _ => rfl) (by decide)⟩

/-- Counterexample to C9 as stated: the categorizer trims the response before
comparing, so the response " bug " — which is not an exact case-insensitive
match to "bug" (its lowercase form differs from "bug") — is nevertheless
mapped to category "bug". -/
theorem categorize_counterexample :
    categorizeModel (some spaceBugCodes) = Cat.bug ∧
    jsToLower spaceBugCodes ≠ bugCodes := by
  constructor
  · rfl
  · decide

/-- C9 (amended): the categorizer maps a response to "bug" if and only if the
response, after trimming surrounding whitespace, is an exact case-insensitive
match to "bug"; an absent answer and the responses "", "maybe" and "Bug!!"
all yield "feature", and no response is an error (the map is total). -/
theorem categorize_amended (content : Option JsString) :
    (categorizeModel content = Cat.bug ↔
      ∃ s, content = some s ∧ jsToLower (jsTrim s) = bugCodes) ∧
    categorizeModel none = Cat.feature ∧
    categorizeModel (some []) = Cat.feature ∧
    categorizeModel (some maybeCodes) = Cat.feature ∧
    categorizeModel (some bugBangCodes) = Cat.feature := by
  refine ⟨?_, rfl, by decide, by decide, by decide⟩
  cases content with
  | none => simp [categorizeModel]
  | some s =>
    simp only [categorizeModel]
    by_cases h : jsToLower (jsTrim s) = bugCodes
    · simp [h]
    · simp [h]

/-- Counterexample to C8 as stated: on a model answer with no parseable
Enhanced Title/Description ("zzz"), the row does not proceed with the
unmodified record — the title is unchanged, but the returned description is
the original description with the "Original title/description" block
appended, which differs from the original description. -/
theorem enhance_counterexample :
    (enhanceRequest rowT (some zzzCodes)).title = rowT.title ∧
    (enhanceRequest rowT (some zzzCodes)).description ≠ rowT.description := by
  constructor
  · rfl
  · decide

/-- C8 (amended): when the model answer yields no Enhanced Title capture the
title stays the original; when neither capture parses, the description is the
original description followed by the "Original title/description" block (the
row never fails — `enhanceRequest` is total); and in every case the original
title and description are retained verbatim as the suffix
"\n\nOriginal title: <title>\nOriginal description: <description>" of the
returned description. -/
theorem enhance_amended (request : FeatureRequest) (content : Option JsString) :
    (content.bind (firstCapture enhancedTitleTag false) = none →
      (enhanceRequest request content).title = request.title) ∧
    (content.bind (firstCapture enhancedTitleTag false) = none ∧
     content.bind (firstCapture enhancedDescriptionTag true) = none →
      (enhanceRequest request content).description =
        request.description ++ (origTitleTag ++ request.title ++ origDescTag ++
          request.description)) ∧
    (∃ pre, (enhanceRequest request content).description =
      pre ++ (origTitleTag ++ request.title ++ origDescTag ++
        request.description)) := by
  refine ⟨?_, ?_, ?_⟩
  · intro h
    simp [enhanceRequest, h]
  · intro h
    simp [enhanceRequest, h.1, h.2]
  · exact ⟨(content.bind (firstCapture enhancedDescriptionTag true)).getD
      request.description, by simp [enhanceRequest]⟩

/-- Witness for the amended C8 at a concrete input: the unparseable answer
"zzz" leaves the title of `rowT` unchanged. -/
theorem enhance_amended_witness :
    ((some zzzCodes).bind (firstCapture enhancedTitleTag false) = none) ∧
    (enhanceRequest rowT (some zzzCodes)).title = rowT.title :=
  ⟨by decide, (enhance_amended rowT (some zzzCodes)).1 (by decide)⟩

theorem substate_refl (st : LoopState) : SubState st st :=
  ⟨fun _ h => h, fun _ h => h, fun _ h => h⟩

theorem substate_trans {a b c : LoopState} (h1 : SubState a b) (h2 : SubState b c) :
    SubState a c :=
  ⟨fun _ h => h2.1 (h1.1 h), fun _ h => h2.2.1 (h1.2.1 h), fun _ h => h2.2.2 (h1.2.2 h)⟩

theorem subset_setAdd (l : List JsString) (x : JsString) : l ⊆ setAdd l x := by
  unfold setAdd
  split
  · exact fun _ h => h
  · exact List.subset_append_left l [x]

theorem substate_applyResult (st : LoopState) (i : Nat) (r : RowResult) :
    SubState st (applyResult st i r) := by
  cases r with
  | committed id t c =>
    refine ⟨List.subset_append_left _ _, ?_, ?_⟩
    · simp only [applyResult]
      split
      · exact subset_setAdd _ _
      · exact fun _ h => h
    · simp only [applyResult]
      split
      · exact subset_setAdd _ _
      · exact fun _ h => h
  | skippedLocal => exact substate_refl st
  | skippedInvalid => exact substate_refl st
  | skippedRemoteDup t c => exact substate_refl st
  | failed => exact substate_refl st

theorem applyResult_of_commitId_none (st : LoopState) (i : Nat) (r : RowResult)
    (h : r.commitId = none) : applyResult st i r = st := by
  cases r <;> simp [RowResult.commitId] at h ⊢ <;> rfl

theorem commitId_eq_some (r : RowResult) (id : JsString) :
    r.commitId = some id ↔ ∃ t c, r = RowResult.committed id t c := by
  cases r <;> simp [RowResult.commitId]

theorem mainLoopGo_cons (ctx : RunCtx) (i : Nat) (request : FeatureRequest)
    (rest : List (Nat × FeatureRequest)) (st : LoopState) :
    mainLoopGo ctx ((i, request) :: rest) st =
      if capReached ctx.cfg.maxPosts st.importedPosts then ([], st)
      else
        (({ index := i, request := request, stateBefore := st,
            calls := (processRow ctx st request (ctx.oracles i)).1,
            result := (processRow ctx st request (ctx.oracles i)).2,
            stateAfter :=
              applyResult st i (processRow ctx st request (ctx.oracles i)).2 } : RowLog) ::
          (mainLoopGo ctx rest
            (applyResult st i (processRow ctx st request (ctx.oracles i)).2)).1,
         (mainLoopGo ctx rest
            (applyResult st i (processRow ctx st request (ctx.oracles i)).2)).2) := rfl

theorem mainLoopGo_entry (ctx : RunCtx) :
    ∀ (items : List (Nat × FeatureRequest)) (st : LoopState) (e : RowLog),
      e ∈ (mainLoopGo ctx items st).1 →
      (e.calls, e.result) = processRow ctx e.stateBefore e.request (ctx.oracles e.index) ∧
      e.stateAfter = applyResult e.stateBefore e.index e.result ∧
      (e.index, e.request) ∈ items ∧
      SubState st e.stateBefore := by
  intro items
  induction items with
  | nil => intro st e he; simp [mainLoopGo] at he
  | cons p rest ih =>
    obtain ⟨i, request⟩ := p
    intro st e he
    rw [mainLoopGo_cons] at he
    by_cases hcap : capReached ctx.cfg.maxPosts st.importedPosts
    · simp [hcap] at he
    · rw [if_neg hcap] at he
      rcases List.mem_cons.mp he with he | he
      · subst he
        exact ⟨rfl, rfl, List.mem_cons_self _ _, substate_refl st⟩
      · obtain ⟨h1, h2, h3, h4⟩ := ih _ e he
        exact ⟨h1, h2, List.mem_cons_of_mem _ h3,
          substate_trans (substate_applyResult st i _) h4⟩

theorem mainLoopGo_final_substate (ctx : RunCtx) :
    ∀ (items : List (Nat × FeatureRequest)) (st : LoopState),
      SubState st (mainLoopGo ctx items st).2 := by
  intro items
  induction items with
  | nil => intro st; exact substate_refl st
  | cons p rest ih =>
    obtain ⟨i, request⟩ := p
    intro st
    rw [mainLoopGo_cons]
    by_cases hcap : capReached ctx.cfg.maxPosts st.importedPosts
    · rw [if_pos hcap]; exact substate_refl st
    · rw [if_neg hcap]
      exact substate_trans (substate_applyResult st i _) (ih _)

theorem mainLoopGo_entry_final (ctx : RunCtx) :
    ∀ (items : List (Nat × FeatureRequest)) (st : LoopState) (e : RowLog),
      e ∈ (mainLoopGo ctx items st).1 →
      SubState e.stateAfter (mainLoopGo ctx items st).2 := by
  intro items
  induction items with
  | nil => intro st e he; simp [mainLoopGo] at he
  | cons p rest ih =>
    obtain ⟨i, request⟩ := p
    intro st e he
    rw [mainLoopGo_cons] at he ⊢
    by_cases hcap : capReached ctx.cfg.maxPosts st.importedPosts
    · simp [hcap] at he
    · rw [if_neg hcap] at he ⊢
      rcases List.mem_cons.mp he with he | he
      · subst he
        exact mainLoopGo_final_substate ctx rest _
      · exact ih _ e he

theorem committedList_cons (e : RowLog) (logs : List RowLog) :
    committedList (e :: logs) =
      (match e.result.commitId with
       | some id => id :: committedList logs
       | none => committedList logs) := by
  unfold committedList
  rw [List.filterMap_cons]
  cases e.result.commitId <;> rfl

theorem mainLoopGo_ids (ctx : RunCtx) :
    ∀ (items : List (Nat × FeatureRequest)) (st : LoopState),
      (mainLoopGo ctx items st).2.importState.importedIds =
        st.importState.importedIds ++ committedList (mainLoopGo ctx items st).1 := by
  intro items
  induction items with
  | nil => intro st; simp [mainLoopGo, committedList]
  | cons p rest ih =>
    obtain ⟨i, request⟩ := p
    intro st
    rw [mainLoopGo_cons]
    by_cases hcap : capReached ctx.cfg.maxPosts st.importedPosts
    · simp [hcap, committedList]
    · rw [if_neg hcap]
      rw [ih]
      rw [committedList_cons]
      cases hr : (processRow ctx st request (ctx.oracles i)).2 with
      | committed id t c =>
        simp [applyResult, RowResult.commitId, hr]
      | skippedLocal => simp [applyResult, RowResult.commitId, hr]
      | skippedInvalid => simp [applyResult, RowResult.commitId, hr]
      | skippedRemoteDup t c => simp [applyResult, RowResult.commitId, hr]
      | failed => simp [applyResult, RowResult.commitId, hr]

theorem mainLoopGo_imported (ctx : RunCtx) :
    ∀ (items : List (Nat × FeatureRequest)) (st : LoopState),
      (mainLoopGo ctx items st).2.importedPosts =
        st.importedPosts + (committedList (mainLoopGo ctx items st).1).length := by
  intro items
  induction items with
  | nil => intro st; simp [mainLoopGo, committedList]
  | cons p rest ih =>
    obtain ⟨i, request⟩ := p
    intro st
    rw [mainLoopGo_cons]
    by_cases hcap : capReached ctx.cfg.maxPosts st.importedPosts
    · simp [hcap, committedList]
    · rw [if_neg hcap]
      rw [ih]
      rw [committedList_cons]
      cases hr : (processRow ctx st request (ctx.oracles i)).2 with
      | committed id t c =>
        simp [applyResult, RowResult.commitId, hr]
        ring
      | skippedLocal => simp [applyResult, RowResult.commitId, hr]
      | skippedInvalid => simp [applyResult, RowResult.commitId, hr]
      | skippedRemoteDup t c => simp [applyResult, RowResult.commitId, hr]
      | failed => simp [applyResult, RowResult.commitId, hr]

theorem mainLoopGo_length_le (ctx : RunCtx) :
    ∀ (items : List (Nat × FeatureRequest)) (st : LoopState),
      (mainLoopGo ctx items st).1.length ≤ items.length := by
  intro items
  induction items with
  | nil => intro st; simp [mainLoopGo]
  | cons p rest ih =>
    obtain ⟨i, request⟩ := p
    intro st
    rw [mainLoopGo_cons]
    by_cases hcap : capReached ctx.cfg.maxPosts st.importedPosts
    · simp [hcap]
    · rw [if_neg hcap]
      simpa using Nat.succ_le_succ (ih _)

theorem mainLoopGo_break (ctx : RunCtx) :
    ∀ (items : List (Nat × FeatureRequest)) (st : LoopState),
      (mainLoopGo ctx items st).1.length < items.length →
      capReached ctx.cfg.maxPosts (mainLoopGo ctx items st).2.importedPosts = true := by
  intro items
  induction items with
  | nil => intro st h; simp [mainLoopGo] at h
  | cons p rest ih =>
    obtain ⟨i, request⟩ := p
    intro st h
    rw [mainLoopGo_cons] at h ⊢
    by_cases hcap : capReached ctx.cfg.maxPosts st.importedPosts
    · rw [if_pos hcap]
      exact hcap
    · rw [if_neg hcap] at h ⊢
      exact ih _ (Nat.lt_of_succ_lt_succ (by simpa using h))

theorem mainLoopGo_cap_le (ctx : RunCtx) (k : Nat) (hmax : ctx.cfg.maxPosts = some k) :
    ∀ (items : List (Nat × FeatureRequest)) (st : LoopState),
      (mainLoopGo ctx items st).2.importedPosts ≤ max k st.importedPosts := by
  intro items
  induction items with
  | nil => intro st; simp [mainLoopGo]
  | cons p rest ih =>
    obtain ⟨i, request⟩ := p
    intro st
    rw [mainLoopGo_cons]
    by_cases hcap : capReached ctx.cfg.maxPosts st.importedPosts
    · rw [if_pos hcap]
      exact Nat.le_max_right _ _
    · rw [if_neg hcap]
      rw [hmax] at hcap
      have hlt : st.importedPosts < k := by
        simpa [capReached, Nat.lt_iff_add_one_le, Nat.not_le] using hcap
      refine (ih _).trans ?_
      have : (applyResult st i (processRow ctx st request (ctx.oracles i)).2).importedPosts ≤ k := by
        cases hr : (processRow ctx st request (ctx.oracles i)).2 <;>
          simp [applyResult] <;> omega
      omega

theorem mainLoopGo_cap_stop (ctx : RunCtx) (items : List (Nat × FeatureRequest))
    (st : LoopState) (hcap : capReached ctx.cfg.maxPosts st.importedPosts = true) :
    mainLoopGo ctx items st = ([], st) := by
  cases items with
  | nil => rfl
  | cons p rest =>
    obtain ⟨i, request⟩ := p
    rw [mainLoopGo_cons, if_pos hcap]

theorem mainLoopGo_cursor (ctx : RunCtx) :
    ∀ (items : List (Nat × FeatureRequest)) (st : LoopState),
      (mainLoopGo ctx items st).2.importState.cursor = st.importState.cursor ∨
      ∃ e ∈ (mainLoopGo ctx items st).1,
        (∃ id t c, e.result = RowResult.committed id t c) ∧
        (mainLoopGo ctx items st).2.importState.cursor = e.index + 1 := by
  intro items
  induction items with
  | nil => intro st; left; rfl
  | cons p rest ih =>
    obtain ⟨i, request⟩ := p
    intro st
    rw [mainLoopGo_cons]
    by_cases hcap : capReached ctx.cfg.maxPosts st.importedPosts
    · rw [if_pos hcap]; left; rfl
    · rw [if_neg hcap]
      rcases ih (applyResult st i (processRow ctx st request (ctx.oracles i)).2) with
        h | ⟨e, he, hcommit, hcur⟩
      · cases hr : (processRow ctx st request (ctx.oracles i)).2 with
        | committed id t c =>
          right
          rw [hr] at h
          refine ⟨_, List.mem_cons_self _ _, ⟨id, t, c, by simp [hr]⟩, ?_⟩
          rw [h]
          simp [applyResult]
        | skippedLocal => left; rw [hr] at h; rw [h]; simp [applyResult]
        | skippedInvalid => left; rw [hr] at h; rw [h]; simp [applyResult]
        | skippedRemoteDup t c => left; rw [hr] at h; rw [h]; simp [applyResult]
        | failed => left; rw [hr] at h; rw [h]; simp [applyResult]
      · right
        exact ⟨e, List.mem_cons_of_mem _ he, hcommit, hcur⟩

theorem mainLoopGo_full (ctx : RunCtx) :
    ∀ (items : List (Nat × FeatureRequest)) (st : LoopState),
      (mainLoopGo ctx items st).1.length = items.length →
      ∀ p ∈ items, ∃ e ∈ (mainLoopGo ctx items st).1,
        e.index = p.1 ∧ e.request = p.2 := by
  intro items
  induction items with
  | nil => intro st _ p hp; simp at hp
  | cons q rest ih =>
    obtain ⟨i, request⟩ := q
    intro st hlen p hp
    rw [mainLoopGo_cons] at hlen ⊢
    by_cases hcap : capReached ctx.cfg.maxPosts st.importedPosts
    · rw [if_pos hcap] at hlen
      simp at hlen
    · rw [if_neg hcap] at hlen ⊢
      rcases List.mem_cons.mp hp with hp | hp
      · subst hp
        exact ⟨_, List.mem_cons_self _ _, rfl, rfl⟩
      · have hlen' : (mainLoopGo ctx rest
            (applyResult st i (processRow ctx st request (ctx.oracles i)).2)).1.length =
            rest.length := by simpa using hlen
        obtain ⟨e, he, h1, h2⟩ := ih _ hlen' p hp
        exact ⟨e, List.mem_cons_of_mem _ he, h1, h2⟩

theorem processRow_of_mem (ctx : RunCtx) (st : LoopState) (request : FeatureRequest)
    (orc : RowOracle) (h : generateItemId ctx.md5 request ∈ st.importState.importedIds) :
    processRow ctx st request orc = ([], RowResult.skippedLocal) := by
  unfold processRow
  rw [if_pos h]

theorem processRow_of_not_mem (ctx : RunCtx) (st : LoopState) (request : FeatureRequest)
    (orc : RowOracle) (h : generateItemId ctx.md5 request ∉ st.importState.importedIds) :
    processRow ctx st request orc =
      processRowBody ctx st.existingFeaturePosts st.existingBugPosts request orc := by
  unfold processRow
  rw [if_neg h]

theorem stagePublish_shape (ctx : RunCtx) (request enhancedRequest : FeatureRequest)
    (category : Cat) (orc : RowOracle) :
    (stagePublish ctx request enhancedRequest category orc).2 = RowResult.failed ∨
    (stagePublish ctx request enhancedRequest category orc).2 =
      RowResult.committed (generateItemId ctx.md5 request) enhancedRequest.title
        category := by
  rcases hu : orc.userAnswer with e | author
  · left; simp [stagePublish, hu]
  · rcases hp : orc.postAnswer with e | postID
    · left; simp [stagePublish, hu, hp]
    · rcases hv : (addVotesModel ctx.sinF postID request.totalLikes ctx.fakeUsers
          orc.voteAnswers).2 with e | u
      · left; simp [stagePublish, hu, hp, hv]
      · right; simp [stagePublish, hu, hp, hv]

theorem stageCategorize_dup (ctx : RunCtx) (feat bug : List JsString)
    (request enhancedRequest : FeatureRequest) (orc : RowOracle) (t : JsString)
    (c : Cat)
    (h : (stageCategorize ctx feat bug request enhancedRequest orc).2 =
      RowResult.skippedRemoteDup t c) :
    (stageCategorize ctx feat bug request enhancedRequest orc).1 =
      [Call.aiCategorize enhancedRequest.title enhancedRequest.description] ∧
    t = enhancedRequest.title ∧
    t ∈ (if c = Cat.feature then feat else bug) := by
  rcases horc : orc.categorizeAnswer with e | content
  · simp [stageCategorize, horc] at h
  · simp only [stageCategorize, horc] at h ⊢
    by_cases hmem : enhancedRequest.title ∈
        (if categorizeModel content = Cat.feature then feat else bug)
    · rw [if_pos hmem] at h ⊢
      have h2 : RowResult.skippedRemoteDup enhancedRequest.title
          (categorizeModel content) = RowResult.skippedRemoteDup t c := h
      injection h2 with h3 h4
      refine ⟨rfl, h3.symm, ?_⟩
      rw [← h3, ← h4]
      exact hmem
    · rw [if_neg hmem] at h
      have h2 : (stagePublish ctx request enhancedRequest
          (categorizeModel content) orc).2 = RowResult.skippedRemoteDup t c := h
      rcases stagePublish_shape ctx request enhancedRequest
          (categorizeModel content) orc with hs | hs <;> rw [hs] at h2 <;> simp at h2

theorem stageCategorize_mono (ctx : RunCtx) (feat bug feat' bug' : List JsString)
    (request enhancedRequest : FeatureRequest) (orc : RowOracle) (t : JsString)
    (c : Cat) (hf : feat ⊆ feat') (hb : bug ⊆ bug')
    (h : (stageCategorize ctx feat bug request enhancedRequest orc).2 =
      RowResult.skippedRemoteDup t c) :
    (stageCategorize ctx feat' bug' request enhancedRequest orc).2 =
      RowResult.skippedRemoteDup t c := by
  rcases horc : orc.categorizeAnswer with e | content
  · simp [stageCategorize, horc] at h
  · simp only [stageCategorize, horc] at h ⊢
    by_cases hmem : enhancedRequest.title ∈
        (if categorizeModel content = Cat.feature then feat else bug)
    · rw [if_pos hmem] at h
      have hmem' : enhancedRequest.title ∈
          (if categorizeModel content = Cat.feature then feat' else bug') := by
        by_cases hcat : categorizeModel content = Cat.feature
        · rw [if_pos hcat] at hmem ⊢; exact hf hmem
        · rw [if_neg hcat] at hmem ⊢; exact hb hmem
      rw [if_pos hmem']
      exact h
    · rw [if_neg hmem] at h
      have h2 : (stagePublish ctx request enhancedRequest
          (categorizeModel content) orc).2 = RowResult.skippedRemoteDup t c := h
      rcases stagePublish_shape ctx request enhancedRequest
          (categorizeModel content) orc with hs | hs <;> rw [hs] at h2 <;> simp at h2

theorem stageCategorize_commit (ctx : RunCtx) (feat bug : List JsString)
    (request enhancedRequest : FeatureRequest) (orc : RowOracle) (id t : JsString)
    (c : Cat)
    (h : (stageCategorize ctx feat bug request enhancedRequest orc).2 =
      RowResult.committed id t c) :
    id = generateItemId ctx.md5 request := by
  rcases horc : orc.categorizeAnswer with e | content
  · simp [stageCategorize, horc] at h
  · simp only [stageCategorize, horc] at h
    by_cases hmem : enhancedRequest.title ∈
        (if categorizeModel content = Cat.feature then feat else bug)
    · rw [if_pos hmem] at h
      have h2 : RowResult.skippedRemoteDup enhancedRequest.title
          (categorizeModel content) = RowResult.committed id t c := h
      simp at h2
    · rw [if_neg hmem] at h
      have h2 : (stagePublish ctx request enhancedRequest
          (categorizeModel content) orc).2 = RowResult.committed id t c := h
      rcases stagePublish_shape ctx request enhancedRequest
          (categorizeModel content) orc with hs | hs <;> rw [hs] at h2
      · simp at h2
      · injection h2 with h3 h4 h5
        exact h3.symm

theorem stageCategorize_not_local_invalid (ctx : RunCtx) (feat bug : List JsString)
    (request enhancedRequest : FeatureRequest) (orc : RowOracle) :
    (stageCategorize ctx feat bug request enhancedRequest orc).2 ≠
      RowResult.skippedLocal ∧
    (stageCategorize ctx feat bug request enhancedRequest orc).2 ≠
      RowResult.skippedInvalid := by
  rcases horc : orc.categorizeAnswer with e | content
  · simp [stageCategorize, horc]
  · simp only [stageCategorize, horc]
    by_cases hmem : enhancedRequest.title ∈
        (if categorizeModel content = Cat.feature then feat else bug)
    · rw [if_pos hmem]; exact ⟨by simp, by simp⟩
    · rw [if_neg hmem]
      rcases stagePublish_shape ctx request enhancedRequest
          (categorizeModel content) orc with hs | hs
      · constructor
        · intro hcontra
          have h2 : (stagePublish ctx request enhancedRequest
              (categorizeModel content) orc).2 = RowResult.skippedLocal := hcontra
          rw [hs] at h2; simp at h2
        · intro hcontra
          have h2 : (stagePublish ctx request enhancedRequest
              (categorizeModel content) orc).2 = RowResult.skippedInvalid := hcontra
          rw [hs] at h2; simp at h2
      · constructor
        · intro hcontra
          have h2 : (stagePublish ctx request enhancedRequest
              (categorizeModel content) orc).2 = RowResult.skippedLocal := hcontra
          rw [hs] at h2; simp at h2
        · intro hcontra
          have h2 : (stagePublish ctx request enhancedRequest
              (categorizeModel content) orc).2 = RowResult.skippedInvalid := hcontra
          rw [hs] at h2; simp at h2

theorem stageEnhance_dup (ctx : RunCtx) (feat bug : List JsString)
    (request : FeatureRequest) (orc : RowOracle) (t : JsString) (c : Cat)
    (h : (stageEnhance ctx feat bug request orc).2 = RowResult.skippedRemoteDup t c) :
    (∀ call ∈ (stageEnhance ctx feat bug request orc).1, call.isAi = true) ∧
    t ∈ (if c = Cat.feature then feat else bug) := by
  simp only [stageEnhance] at h ⊢
  by_cases he : ctx.cfg.postsAiEnhancement
  · rw [if_pos he] at h ⊢
    rcases hea : orc.enhanceAnswer with e | content
    · rw [hea] at h
      have h2 : RowResult.failed = RowResult.skippedRemoteDup t c := h
      simp at h2
    · rw [hea] at h
      have h2 : (stageCategorize ctx feat bug request
          (enhanceRequest request content) orc).2 = RowResult.skippedRemoteDup t c := h
      obtain ⟨hcalls, ht, hmem⟩ := stageCategorize_dup ctx feat bug request
        (enhanceRequest request content) orc t c h2
      constructor
      · intro call hcall
        replace hcall : call ∈ Call.aiEnhance request.title request.description ::
            (stageCategorize ctx feat bug request
              (enhanceRequest request content) orc).1 := hcall
        rcases List.mem_cons.mp hcall with hcall | hcall
        · subst hcall; rfl
        · rw [hcalls] at hcall
          rcases List.mem_singleton.mp hcall with rfl
          rfl
      · exact hmem
  · rw [if_neg he] at h ⊢
    obtain ⟨hcalls, ht, hmem⟩ := stageCategorize_dup ctx feat bug request request orc t c h
    constructor
    · intro call hcall
      rw [hcalls] at hcall
      rcases List.mem_singleton.mp hcall with rfl
      rfl
    · exact hmem

theorem stageEnhance_mono (ctx : RunCtx) (feat bug feat' bug' : List JsString)
    (request : FeatureRequest) (orc : RowOracle) (t : JsString) (c : Cat)
    (hf : feat ⊆ feat') (hb : bug ⊆ bug')
    (h : (stageEnhance ctx feat bug request orc).2 = RowResult.skippedRemoteDup t c) :
    (stageEnhance ctx feat' bug' request orc).2 = RowResult.skippedRemoteDup t c := by
  simp only [stageEnhance] at h ⊢
  by_cases he : ctx.cfg.postsAiEnhancement
  · rw [if_pos he] at h ⊢
    rcases hea : orc.enhanceAnswer with e | content
    · rw [hea] at h
      have h2 : RowResult.failed = RowResult.skippedRemoteDup t c := h
      simp at h2
    · rw [hea] at h
      have h2 : (stageCategorize ctx feat bug request
          (enhanceRequest request content) orc).2 = RowResult.skippedRemoteDup t c := h
      exact stageCategorize_mono ctx feat bug feat' bug' request
        (enhanceRequest request content) orc t c hf hb h2
  · rw [if_neg he] at h ⊢
    exact stageCategorize_mono ctx feat bug feat' bug' request request orc t c hf hb h

theorem stageEnhance_commit (ctx : RunCtx) (feat bug : List JsString)
    (request : FeatureRequest) (orc : RowOracle) (id t : JsString) (c : Cat)
    (h : (stageEnhance ctx feat bug request orc).2 = RowResult.committed id t c) :
    id = generateItemId ctx.md5 request := by
  simp only [stageEnhance] at h
  by_cases he : ctx.cfg.postsAiEnhancement
  · rw [if_pos he] at h
    rcases hea : orc.enhanceAnswer with e | content
    · rw [hea] at h
      have h2 : RowResult.failed = RowResult.committed id t c := h
      simp at h2
    · rw [hea] at h
      have h2 : (stageCategorize ctx feat bug request
          (enhanceRequest request content) orc).2 = RowResult.committed id t c := h
      exact stageCategorize_commit ctx feat bug request
        (enhanceRequest request content) orc id t c h2
  · rw [if_neg he] at h
    exact stageCategorize_commit ctx feat bug request request orc id t c h

theorem stageEnhance_not_local_invalid (ctx : RunCtx) (feat bug : List JsString)
    (request : FeatureRequest) (orc : RowOracle) :
    (stageEnhance ctx feat bug request orc).2 ≠ RowResult.skippedLocal ∧
    (stageEnhance ctx feat bug request orc).2 ≠ RowResult.skippedInvalid := by
  simp only [stageEnhance]
  by_cases he : ctx.cfg.postsAiEnhancement
  · rw [if_pos he]
    rcases hea : orc.enhanceAnswer with e | content
    · exact ⟨by simp, by simp⟩
    · have := stageCategorize_not_local_invalid ctx feat bug request
        (enhanceRequest request content) orc
      exact ⟨this.1, this.2⟩
  · rw [if_neg he]
    exact stageCategorize_not_local_invalid ctx feat bug request request orc

theorem processRowBody_nofilter (ctx : RunCtx) (feat bug : List JsString)
    (request : FeatureRequest) (orc : RowOracle)
    (hfil : ctx.cfg.invalidPostsAiFiltering = false) :
    processRowBody ctx feat bug request orc = stageEnhance ctx feat bug request orc := by
  simp [processRowBody, hfil]

theorem processRowBody_validErr (ctx : RunCtx) (feat bug : List JsString)
    (request : FeatureRequest) (orc : RowOracle) (e : Unit)
    (hfil : ctx.cfg.invalidPostsAiFiltering = true)
    (hva : orc.validAnswer = Except.error e) :
    processRowBody ctx feat bug request orc =
      ([Call.aiValidity request.title request.description], RowResult.failed) := by
  simp [processRowBody, hfil, hva]

theorem processRowBody_valid_true (ctx : RunCtx) (feat bug : List JsString)
    (request : FeatureRequest) (orc : RowOracle) (content : Option JsString)
    (hfil : ctx.cfg.invalidPostsAiFiltering = true)
    (hva : orc.validAnswer = Except.ok content)
    (hval : isValidModel content = true) :
    processRowBody ctx feat bug request orc =
      (Call.aiValidity request.title request.description ::
        (stageEnhance ctx feat bug request orc).1,
       (stageEnhance ctx feat bug request orc).2) := by
  simp [processRowBody, hfil, hva, hval]

theorem processRowBody_valid_false (ctx : RunCtx) (feat bug : List JsString)
    (request : FeatureRequest) (orc : RowOracle) (content : Option JsString)
    (hfil : ctx.cfg.invalidPostsAiFiltering = true)
    (hva : orc.validAnswer = Except.ok content)
    (hval : isValidModel content = false) :
    processRowBody ctx feat bug request orc =
      ([Call.aiValidity request.title request.description],
        RowResult.skippedInvalid) := by
  simp [processRowBody, hfil, hva, hval]

theorem bool_false_or_true (b : Bool) : b = false ∨ b = true := by
  cases b
  · exact Or.inl rfl
  · exact Or.inr rfl

theorem processRowBody_dup_info (ctx : RunCtx) (feat bug : List JsString)
    (request : FeatureRequest) (orc : RowOracle) (t : JsString) (c : Cat)
    (h : (processRowBody ctx feat bug request orc).2 = RowResult.skippedRemoteDup t c) :
    (∀ call ∈ (processRowBody ctx feat bug request orc).1, call.isAi = true) ∧
    t ∈ (if c = Cat.feature then feat else bug) := by
  rcases bool_false_or_true ctx.cfg.invalidPostsAiFiltering with hfil | hfil
  · rw [processRowBody_nofilter ctx feat bug request orc hfil] at h ⊢
    exact stageEnhance_dup ctx feat bug request orc t c h
  · rcases hva : orc.validAnswer with e | content
    · rw [processRowBody_validErr ctx feat bug request orc e hfil hva] at h
      simp at h
    · rcases bool_false_or_true (isValidModel content) with hval | hval
      · rw [processRowBody_valid_false ctx feat bug request orc content hfil hva hval] at h
        simp at h
      · rw [processRowBody_valid_true ctx feat bug request orc content hfil hva hval] at h ⊢
        have h2 : (stageEnhance ctx feat bug request orc).2 =
          RowResult.skippedRemoteDup t c := h
        obtain ⟨hcalls, hmem⟩ := stageEnhance_dup ctx feat bug request orc t c h2
        refine ⟨?_, hmem⟩
        intro call hcall
        replace hcall : call ∈ Call.aiValidity request.title request.description ::
            (stageEnhance ctx feat bug request orc).1 := hcall
        rcases List.mem_cons.mp hcall with hcall | hcall
        · subst hcall; rfl
        · exact hcalls call hcall

theorem processRowBody_dup_mono (ctx : RunCtx) (feat bug feat' bug' : List JsString)
    (request : FeatureRequest) (orc : RowOracle) (t : JsString) (c : Cat)
    (hf : feat ⊆ feat') (hb : bug ⊆ bug')
    (h : (processRowBody ctx feat bug request orc).2 = RowResult.skippedRemoteDup t c) :
    (processRowBody ctx feat' bug' request orc).2 = RowResult.skippedRemoteDup t c := by
  rcases bool_false_or_true ctx.cfg.invalidPostsAiFiltering with hfil | hfil
  · rw [processRowBody_nofilter ctx feat bug request orc hfil] at h
    rw [processRowBody_nofilter ctx feat' bug' request orc hfil]
    exact stageEnhance_mono ctx feat bug feat' bug' request orc t c hf hb h
  · rcases hva : orc.validAnswer with e | content
    · rw [processRowBody_validErr ctx feat bug request orc e hfil hva] at h
      simp at h
    · rcases bool_false_or_true (isValidModel content) with hval | hval
      · rw [processRowBody_valid_false ctx feat bug request orc content hfil hva hval] at h
        simp at h
      · rw [processRowBody_valid_true ctx feat bug request orc content hfil hva hval] at h
        rw [processRowBody_valid_true ctx feat' bug' request orc content hfil hva hval]
        have h2 : (stageEnhance ctx feat bug request orc).2 =
          RowResult.skippedRemoteDup t c := h
        have h3 := stageEnhance_mono ctx feat bug feat' bug' request orc t c hf hb h2
        exact h3

theorem processRowBody_invalid_mono (ctx : RunCtx) (feat bug feat' bug' : List JsString)
    (request : FeatureRequest) (orc : RowOracle)
    (h : (processRowBody ctx feat bug request orc).2 = RowResult.skippedInvalid) :
    (processRowBody ctx feat' bug' request orc).2 = RowResult.skippedInvalid := by
  rcases bool_false_or_true ctx.cfg.invalidPostsAiFiltering with hfil | hfil
  · rw [processRowBody_nofilter ctx feat bug request orc hfil] at h
    exact absurd h (stageEnhance_not_local_invalid ctx feat bug request orc).2
  · rcases hva : orc.validAnswer with e | content
    · rw [processRowBody_validErr ctx feat bug request orc e hfil hva] at h
      simp at h
    · rcases bool_false_or_true (isValidModel content) with hval | hval
      · rw [processRowBody_valid_false ctx feat' bug' request orc content hfil hva hval]
      · rw [processRowBody_valid_true ctx feat bug request orc content hfil hva hval] at h
        have h2 : (stageEnhance ctx feat bug request orc).2 =
          RowResult.skippedInvalid := h
        exact absurd h2 (stageEnhance_not_local_invalid ctx feat bug request orc).2

theorem processRowBody_invalid_calls (ctx : RunCtx) (feat bug : List JsString)
    (request : FeatureRequest) (orc : RowOracle)
    (h : (processRowBody ctx feat bug request orc).2 = RowResult.skippedInvalid) :
    (processRowBody ctx feat bug request orc).1 =
      [Call.aiValidity request.title request.description] := by
  rcases bool_false_or_true ctx.cfg.invalidPostsAiFiltering with hfil | hfil
  · rw [processRowBody_nofilter ctx feat bug request orc hfil] at h
    exact absurd h (stageEnhance_not_local_invalid ctx feat bug request orc).2
  · rcases hva : orc.validAnswer with e | content
    · rw [processRowBody_validErr ctx feat bug request orc e hfil hva] at h
      simp at h
    · rcases bool_false_or_true (isValidModel content) with hval | hval
      · rw [processRowBody_valid_false ctx feat bug request orc content hfil hva hval]
      · rw [processRowBody_valid_true ctx feat bug request orc content hfil hva hval] at h
        have h2 : (stageEnhance ctx feat bug request orc).2 =
          RowResult.skippedInvalid := h
        exact absurd h2 (stageEnhance_not_local_invalid ctx feat bug request orc).2

theorem processRowBody_commit (ctx : RunCtx) (feat bug : List JsString)
    (request : FeatureRequest) (orc : RowOracle) (id t : JsString) (c : Cat)
    (h : (processRowBody ctx feat bug request orc).2 = RowResult.committed id t c) :
    id = generateItemId ctx.md5 request := by
  rcases bool_false_or_true ctx.cfg.invalidPostsAiFiltering with hfil | hfil
  · rw [processRowBody_nofilter ctx feat bug request orc hfil] at h
    exact stageEnhance_commit ctx feat bug request orc id t c h
  · rcases hva : orc.validAnswer with e | content
    · rw [processRowBody_validErr ctx feat bug request orc e hfil hva] at h
      simp at h
    · rcases bool_false_or_true (isValidModel content) with hval | hval
      · rw [processRowBody_valid_false ctx feat bug request orc content hfil hva hval] at h
        simp at h
      · rw [processRowBody_valid_true ctx feat bug request orc content hfil hva hval] at h
        have h2 : (stageEnhance ctx feat bug request orc).2 =
          RowResult.committed id t c := h
        exact stageEnhance_commit ctx feat bug request orc id t c h2

theorem processRowBody_not_local (ctx : RunCtx) (feat bug : List JsString)
    (request : FeatureRequest) (orc : RowOracle) :
    (processRowBody ctx feat bug request orc).2 ≠ RowResult.skippedLocal := by
  rcases bool_false_or_true ctx.cfg.invalidPostsAiFiltering with hfil | hfil
  · rw [processRowBody_nofilter ctx feat bug request orc hfil]
    exact (stageEnhance_not_local_invalid ctx feat bug request orc).1
  · rcases hva : orc.validAnswer with e | content
    · rw [processRowBody_validErr ctx feat bug request orc e hfil hva]
      simp
    · rcases bool_false_or_true (isValidModel content) with hval | hval
      · rw [processRowBody_valid_false ctx feat bug request orc content hfil hva hval]
        simp
      · rw [processRowBody_valid_true ctx feat bug request orc content hfil hva hval]
        intro hcontra
        have h2 : (stageEnhance ctx feat bug request orc).2 =
          RowResult.skippedLocal := hcontra
        exact absurd h2 (stageEnhance_not_local_invalid ctx feat bug request orc).1

theorem processRow_skip_calls (ctx : RunCtx) (st : LoopState)
    (request : FeatureRequest) (orc : RowOracle)
    (h : (processRow ctx st request orc).2.isSkip = true) :
    ∀ call ∈ (processRow ctx st request orc).1, call.isAi = true := by
  by_cases hmem : generateItemId ctx.md5 request ∈ st.importState.importedIds
  · rw [processRow_of_mem ctx st request orc hmem]
    intro call hcall
    simp at hcall
  · rw [processRow_of_not_mem ctx st request orc hmem] at h ⊢
    cases hres : (processRowBody ctx st.existingFeaturePosts st.existingBugPosts
        request orc).2 with
    | skippedLocal =>
      exact absurd hres (processRowBody_not_local ctx _ _ request orc)
    | skippedInvalid =>
      rw [processRowBody_invalid_calls ctx _ _ request orc hres]
      intro call hcall
      rcases List.mem_singleton.mp hcall with rfl
      rfl
    | skippedRemoteDup t c =>
      exact (processRowBody_dup_info ctx _ _ request orc t c hres).1
    | committed id t c => rw [hres] at h; simp [RowResult.isSkip] at h
    | failed => rw [hres] at h; simp [RowResult.isSkip] at h

theorem processRow_stable (ctx : RunCtx) (st st' : LoopState)
    (request : FeatureRequest) (orc : RowOracle) (hsub : SubState st st')
    (hne : (processRow ctx st request orc).2 ≠ RowResult.failed)
    (hcommit : ∀ id t c,
      (processRow ctx st request orc).2 = RowResult.committed id t c →
      id ∈ st'.importState.importedIds) :
    (processRow ctx st' request orc).2.isSkip = true := by
  by_cases hmem' : generateItemId ctx.md5 request ∈ st'.importState.importedIds
  · rw [processRow_of_mem ctx st' request orc hmem']
    rfl
  · rw [processRow_of_not_mem ctx st' request orc hmem']
    by_cases hmem : generateItemId ctx.md5 request ∈ st.importState.importedIds
    · exact absurd (hsub.1 hmem) hmem'
    · rw [processRow_of_not_mem ctx st request orc hmem] at hne hcommit
      cases hres : (processRowBody ctx st.existingFeaturePosts st.existingBugPosts
          request orc).2 with
      | skippedLocal =>
        exact absurd hres (processRowBody_not_local ctx _ _ request orc)
      | skippedInvalid =>
        rw [processRowBody_invalid_mono ctx st.existingFeaturePosts
          st.existingBugPosts st'.existingFeaturePosts st'.existingBugPosts
          request orc hres]
        rfl
      | skippedRemoteDup t c =>
        rw [processRowBody_dup_mono ctx st.existingFeaturePosts
          st.existingBugPosts st'.existingFeaturePosts st'.existingBugPosts
          request orc t c hsub.2.1 hsub.2.2 hres]
        rfl
      | committed id t c =>
        have hid := processRowBody_commit ctx st.existingFeaturePosts
          st.existingBugPosts request orc id t c hres
        have hin := hcommit id t c hres
        rw [hid] at hin
        exact absurd hin hmem'
      | failed => exact absurd hres hne

theorem applyResult_of_isSkip (st : LoopState) (i : Nat) (r : RowResult)
    (h : r.isSkip = true) : applyResult st i r = st := by
  cases r <;> simp [RowResult.isSkip] at h ⊢ <;> rfl

theorem mainLoopGo_all_skip (ctx : RunCtx) :
    ∀ (items : List (Nat × FeatureRequest)) (st : LoopState),
      (∀ p ∈ items, (processRow ctx st p.2 (ctx.oracles p.1)).2.isSkip = true) →
      (mainLoopGo ctx items st).2 = st ∧
      ∀ e ∈ (mainLoopGo ctx items st).1, e.result.isSkip = true ∧ e.stateBefore = st := by
  intro items
  induction items with
  | nil => intro st h; exact ⟨rfl, by intro e he; simp [mainLoopGo] at he⟩
  | cons p rest ih =>
    obtain ⟨i, request⟩ := p
    intro st h
    rw [mainLoopGo_cons]
    by_cases hcap : capReached ctx.cfg.maxPosts st.importedPosts
    · rw [if_pos hcap]
      exact ⟨rfl, by intro e he; simp at he⟩
    · rw [if_neg hcap]
      have hhead := h (i, request) (List.mem_cons_self _ _)
      have hst' : applyResult st i (processRow ctx st request (ctx.oracles i)).2 = st :=
        applyResult_of_isSkip st i _ hhead
      rw [hst']
      obtain ⟨hfin, hall⟩ := ih st (fun p hp => h p (List.mem_cons_of_mem _ hp))
      refine ⟨hfin, ?_⟩
      intro e he
      rcases List.mem_cons.mp he with he | he
      · subst he
        exact ⟨hhead, rfl⟩
      · exact hall e he

theorem mem_enum_drop {α : Type} {l : List α} {c : Nat} {p : Nat × α}
    (hp : p ∈ l.enum.drop c) : c ≤ p.1 ∧ l.get? p.1 = some p.2 := by
  obtain ⟨n, hn⟩ := List.mem_iff_get?.mp hp
  rw [List.get?_drop] at hn
  rw [List.get?_enum] at hn
  cases hg : l.get? (c + n) with
  | none => rw [hg] at hn; simp at hn
  | some a =>
    rw [hg] at hn
    simp at hn
    subst hn
    constructor
    · exact Nat.le_add_right c n
    · exact hg

theorem enum_drop_mem {α : Type} {l : List α} {c i : Nat} {a : α}
    (hc : c ≤ i) (hg : l.get? i = some a) : (i, a) ∈ l.enum.drop c := by
  apply List.get?_mem (n := i - c)
  rw [List.get?_drop, Nat.add_sub_cancel' hc, List.get?_enum, hg]
  rfl

/-- C2: a row whose ItemId is already in `importedIds` when the row is reached
is skipped with an empty call trace — zero remote calls and zero AI-service
calls; in particular the local ItemId check runs before any AI stage. -/
theorem local_skip_zero_calls (ctx : RunCtx) (feat bug : List JsString)
    (is0 : ImportState) (e : RowLog)
    (he : e ∈ (mainRun ctx feat bug is0).1)
    (hmem : generateItemId ctx.md5 e.request ∈
      e.stateBefore.importState.importedIds) :
    e.calls = [] ∧ e.result = RowResult.skippedLocal := by
  simp only [mainRun] at he
  obtain ⟨h1, _, _, _⟩ := mainLoopGo_entry ctx _ _ e he
  rw [processRow_of_mem ctx e.stateBefore e.request (ctx.oracles e.index) hmem] at h1
  exact ⟨congrArg Prod.fst h1, congrArg Prod.snd h1⟩

/-- Witness for C2 at a concrete run: one row whose ItemId is already in the
initial `importedIds`. -/
theorem local_skip_zero_calls_witness :
    (eLocal ∈ (mainRun ctxOne [] [] ⟨0, [[97, 49]]⟩).1 ∧
     generateItemId ctxOne.md5 eLocal.request ∈
       eLocal.stateBefore.importState.importedIds) ∧
    (eLocal.calls = [] ∧ eLocal.result = RowResult.skippedLocal) :=
  ⟨⟨by decide, by decide⟩,
    local_skip_zero_calls ctxOne [] [] ⟨0, [[97, 49]]⟩ eLocal (by decide) (by decide)⟩

/-- C3: a row that passes the local check but whose (possibly enhanced) title
is already in the in-memory title set of its decided category is skipped with
only AI calls in its trace (no user-creation, post-creation or vote calls),
and the loop state is left unchanged: no ItemId is added, the cursor does not
advance, and the `importedPosts` counter is not incremented. -/
theorem remote_dup_skip_frame (ctx : RunCtx) (feat bug : List JsString)
    (is0 : ImportState) (e : RowLog)
    (he : e ∈ (mainRun ctx feat bug is0).1) (t : JsString) (c : Cat)
    (hr : e.result = RowResult.skippedRemoteDup t c) :
    (∀ call ∈ e.calls, call.isAi = true) ∧
    e.stateAfter = e.stateBefore ∧
    t ∈ (if c = Cat.feature then e.stateBefore.existingFeaturePosts
         else e.stateBefore.existingBugPosts) := by
  simp only [mainRun] at he
  obtain ⟨h1, h2, _, _⟩ := mainLoopGo_entry ctx _ _ e he
  by_cases hmem : generateItemId ctx.md5 e.request ∈
      e.stateBefore.importState.importedIds
  · rw [processRow_of_mem ctx e.stateBefore e.request (ctx.oracles e.index) hmem] at h1
    have hres : e.result = RowResult.skippedLocal := congrArg Prod.snd h1
    rw [hr] at hres
    simp at hres
  · rw [processRow_of_not_mem ctx e.stateBefore e.request (ctx.oracles e.index) hmem] at h1
    have hres : (processRowBody ctx e.stateBefore.existingFeaturePosts
        e.stateBefore.existingBugPosts e.request (ctx.oracles e.index)).2 =
        RowResult.skippedRemoteDup t c := by
      rw [← hr]
      exact (congrArg Prod.snd h1).symm
    have hcalls : e.calls = (processRowBody ctx e.stateBefore.existingFeaturePosts
        e.stateBefore.existingBugPosts e.request (ctx.oracles e.index)).1 :=
      congrArg Prod.fst h1
    obtain ⟨hAI, hmem2⟩ := processRowBody_dup_info ctx _ _ e.request
      (ctx.oracles e.index) t c hres
    refine ⟨?_, ?_, hmem2⟩
    · rw [hcalls]
      exact hAI
    · rw [h2, hr]
      rfl

/-- Witness for C3 at a concrete run: one row whose title already sits in the
feature-board title set. -/
theorem remote_dup_skip_frame_witness :
    (eDup ∈ (mainRun ctxOne [[97]] [] ⟨0, []⟩).1 ∧
     eDup.result = RowResult.skippedRemoteDup [97] Cat.feature) ∧
    ((∀ call ∈ eDup.calls, call.isAi = true) ∧
     eDup.stateAfter = eDup.stateBefore ∧
     [97] ∈ (if Cat.feature = Cat.feature then
         eDup.stateBefore.existingFeaturePosts
       else eDup.stateBefore.existingBugPosts)) :=
  ⟨⟨by decide, by decide⟩,
    remote_dup_skip_frame ctxOne [[97]] [] ⟨0, []⟩ eDup (by decide) [97]
      Cat.feature (by decide)⟩

/-- Counterexample to C4 as stated: two rows, the first failing at
`posts/create` and the second succeeding.  The success at the later row sets
`cursor = 2`, which is NOT at most the failed row's position (row 1), and a
subsequent run — which starts at the cursor — has no rows left, so the failed
row is never processed again.  (The failed row's ItemId is indeed absent.) -/
theorem failed_row_counterexample :
    ((mainRun ctxFail [] [] ⟨0, []⟩).1.map RowLog.result) =
      [RowResult.failed, RowResult.committed [98, 50] [98] Cat.feature] ∧
    (mainRun ctxFail [] [] ⟨0, []⟩).2.importState.cursor = 2 ∧
    ¬((mainRun ctxFail [] [] ⟨0, []⟩).2.importState.cursor ≤ 1) ∧
    (ctxFail.requests.enum.drop
      (mainRun ctxFail [] [] ⟨0, []⟩).2.importState.cursor) = [] ∧
    [97, 49] ∉ (mainRun ctxFail [] [] ⟨0, []⟩).2.importState.importedIds := by
  decide

/-- C4 (amended): if a row fails, its ItemId is never added to `importedIds`
(provided no other row commits the same ItemId), and — provided no row at or
after the failed one commits during the same run — the persisted cursor stays
at most the failed row's index, so a subsequent run reaches the row again.  (A
later committed row, by contrast, advances the cursor past the failed row, as
the counterexample shows.) -/
theorem failed_row_amended (ctx : RunCtx) (feat bug : List JsString)
    (is0 : ImportState) (e : RowLog)
    (he : e ∈ (mainRun ctx feat bug is0).1)
    (hf : e.result = RowResult.failed)
    (hdist : ∀ e2 ∈ (mainRun ctx feat bug is0).1, ∀ t c,
      e2.result ≠ RowResult.committed (generateItemId ctx.md5 e.request) t c)
    (hlater : ∀ e2 ∈ (mainRun ctx feat bug is0).1, e.index ≤ e2.index →
      ∀ id t c, e2.result ≠ RowResult.committed id t c) :
    generateItemId ctx.md5 e.request ∉
      (mainRun ctx feat bug is0).2.importState.importedIds ∧
    (mainRun ctx feat bug is0).2.importState.cursor ≤ e.index := by
  simp only [mainRun] at he hdist hlater ⊢
  obtain ⟨h1, h2, hitem, hsub0⟩ := mainLoopGo_entry ctx _ _ e he
  constructor
  · intro hmem
    rw [mainLoopGo_ids] at hmem
    rcases List.mem_append.mp hmem with hmem | hmem
    · have hmem2 : generateItemId ctx.md5 e.request ∈
          e.stateBefore.importState.importedIds := hsub0.1 hmem
      rw [processRow_of_mem ctx e.stateBefore e.request (ctx.oracles e.index) hmem2] at h1
      have hres : e.result = RowResult.skippedLocal := congrArg Prod.snd h1
      rw [hf] at hres
      simp at hres
    · obtain ⟨e2, he2, hc2⟩ := List.mem_filterMap.mp hmem
      obtain ⟨t, c, hcom⟩ := (commitId_eq_some e2.result _).mp hc2
      exact hdist e2 he2 t c hcom
  · rcases mainLoopGo_cursor ctx _ _ with hcur | ⟨e2, he2, ⟨id, t, c, hcom⟩, hcur⟩
    · rw [hcur]
      exact (mem_enum_drop hitem).1
    · have hlt : ¬(e.index ≤ e2.index) := fun hle => hlater e2 he2 hle id t c hcom
      rw [hcur]
      omega

/-- Witness for the amended C4 at a concrete run: a single row failing at
`posts/create` — its ItemId is absent from the final state and the cursor
stays at 0. -/
theorem failed_row_amended_witness :
    (eFail1 ∈ (mainRun ctxFail1 [] [] ⟨0, []⟩).1 ∧
     eFail1.result = RowResult.failed) ∧
    (generateItemId ctxFail1.md5 eFail1.request ∉
       (mainRun ctxFail1 [] [] ⟨0, []⟩).2.importState.importedIds ∧
     (mainRun ctxFail1 [] [] ⟨0, []⟩).2.importState.cursor ≤ eFail1.index) :=
  ⟨⟨by decide, by decide⟩,
    failed_row_amended ctxFail1 [] [] ⟨0, []⟩ eFail1 (by decide) (by decide)
      (by
        intro e2 he2 t c
        have hlogs : (mainRun ctxFail1 [] [] (⟨0, []⟩ : ImportState)).1 =
          [eFail1] := by decide
        rw [hlogs] at he2
        rcases List.mem_singleton.mp he2 with rfl
        intro hcontra
        have : RowResult.failed = RowResult.committed
          (generateItemId ctxFail1.md5 eFail1.request) t c := hcontra
        simp at this)
      (by
        intro e2 he2 hle id t c
        have hlogs : (mainRun ctxFail1 [] [] (⟨0, []⟩ : ImportState)).1 =
          [eFail1] := by decide
        rw [hlogs] at he2
        rcases List.mem_singleton.mp he2 with rfl
        intro hcontra
        have : RowResult.failed = RowResult.committed id t c := hcontra
        simp at this)⟩

/-- Counterexample to C5 as stated: the two rows are eligible (the uncapped
fresh run commits both, so there are more than `k = 1` eligible rows), yet the
run with `maxPosts = 1` starting from a state with one previously imported id
commits zero posts, not exactly one — `importedPosts` is initialized to
`importedIds.length`, so the cap counts imports from prior runs, not only
posts imported this run. -/
theorem cap_counterexample :
    committedList (mainRun ctxTwo [] [] ⟨0, []⟩).1 = [[97, 49], [98, 50]] ∧
    committedList (mainRun ctxCap [] [] ⟨0, [[120]]⟩).1 = [] := by
  decide

/-- C5 (amended): with `maxPosts = k`, the number of committed posts plus the
initial `importedIds` count equals the final `importedPosts`, which never
exceeds `max k |importedIds₀|`; when the loop stops before exhausting the rows
(a plain `break`, not an error) the final counter is exactly
`max k |importedIds₀|` — so a fresh run (`importedIds₀ = []`) with more than
`k` eligible rows commits exactly `k` posts, while a resumed run only commits
`k − |importedIds₀|`, the counter being initialized from the persisted ids. -/
theorem cap_amended (ctx : RunCtx) (feat bug : List JsString) (is0 : ImportState)
    (k : Nat) (hmax : ctx.cfg.maxPosts = some k) :
    (committedList (mainRun ctx feat bug is0).1).length + is0.importedIds.length =
      (mainRun ctx feat bug is0).2.importedPosts ∧
    (mainRun ctx feat bug is0).2.importedPosts ≤ max k is0.importedIds.length ∧
    ((mainRun ctx feat bug is0).1.length <
        (ctx.requests.enum.drop is0.cursor).length →
      (mainRun ctx feat bug is0).2.importedPosts = max k is0.importedIds.length) := by
  simp only [mainRun]
  have himp : (mainLoopGo ctx (ctx.requests.enum.drop is0.cursor)
      (initState feat bug is0)).2.importedPosts =
      is0.importedIds.length +
        (committedList (mainLoopGo ctx (ctx.requests.enum.drop is0.cursor)
          (initState feat bug is0)).1).length :=
    mainLoopGo_imported ctx _ _
  have hle : (mainLoopGo ctx (ctx.requests.enum.drop is0.cursor)
      (initState feat bug is0)).2.importedPosts ≤
      max k is0.importedIds.length :=
    mainLoopGo_cap_le ctx k hmax _ _
  refine ⟨by omega, hle, ?_⟩
  intro hbr
  have hcap := mainLoopGo_break ctx _ _ hbr
  rw [hmax] at hcap
  have hk : k ≤ (mainLoopGo ctx (ctx.requests.enum.drop is0.cursor)
      (initState feat bug is0)).2.importedPosts := by
    simpa [capReached] using hcap
  omega

/-- Witness for the amended C5 at a concrete run: cap of one post, fresh
state, two eligible rows — the loop breaks early with exactly one commit. -/
theorem cap_amended_witness :
    (ctxCap.cfg.maxPosts = some 1) ∧
    ((committedList (mainRun ctxCap [] [] ⟨0, []⟩).1).length +
        (⟨0, []⟩ : ImportState).importedIds.length =
      (mainRun ctxCap [] [] ⟨0, []⟩).2.importedPosts ∧
     (mainRun ctxCap [] [] ⟨0, []⟩).2.importedPosts ≤
       max 1 (⟨0, []⟩ : ImportState).importedIds.length ∧
     ((mainRun ctxCap [] [] ⟨0, []⟩).1.length <
         (ctxCap.requests.enum.drop (⟨0, []⟩ : ImportState).cursor).length →
       (mainRun ctxCap [] [] ⟨0, []⟩).2.importedPosts =
         max 1 (⟨0, []⟩ : ImportState).importedIds.length)) :=
  ⟨rfl, cap_amended ctxCap [] [] ⟨0, []⟩ 1 rfl⟩

/-- C6: if a run finishes with no row failure, replaying the Orchestrator with
the same source rows and the same oracle answers, starting from the
persisted state and from the remote title indexes as the first run left them,
makes every row a skip (local ItemId hit, invalid again, or remote-title
duplicate again) and issues only AI-service calls — in particular zero
user-creation, post-creation and vote calls, so zero additional posts. -/
theorem second_run_no_new_posts (ctx : RunCtx) (feat bug : List JsString)
    (is0 : ImportState)
    (h1 : ∀ e ∈ (mainRun ctx feat bug is0).1, e.result ≠ RowResult.failed) :
    ∀ e ∈ (mainRun ctx (mainRun ctx feat bug is0).2.existingFeaturePosts
        (mainRun ctx feat bug is0).2.existingBugPosts
        (mainRun ctx feat bug is0).2.importState).1,
      e.result.isSkip = true ∧ ∀ call ∈ e.calls, call.isAi = true := by
  simp only [mainRun] at h1 ⊢
  have hlen : (mainLoopGo ctx (ctx.requests.enum.drop is0.cursor) (initState feat bug is0)).2.importState.importedIds.length = (mainLoopGo ctx (ctx.requests.enum.drop is0.cursor) (initState feat bug is0)).2.importedPosts := by
    have hids : (mainLoopGo ctx (ctx.requests.enum.drop is0.cursor) (initState feat bug is0)).2.importState.importedIds =
        is0.importedIds ++ committedList (mainLoopGo ctx (ctx.requests.enum.drop is0.cursor) (initState feat bug is0)).1 := mainLoopGo_ids ctx _ _
    have himp : (mainLoopGo ctx (ctx.requests.enum.drop is0.cursor) (initState feat bug is0)).2.importedPosts =
        is0.importedIds.length + (committedList (mainLoopGo ctx (ctx.requests.enum.drop is0.cursor) (initState feat bug is0)).1).length :=
      mainLoopGo_imported ctx _ _
    rw [hids, himp, List.length_append]
  by_cases hbr : (mainLoopGo ctx (ctx.requests.enum.drop is0.cursor) (initState feat bug is0)).1.length < (ctx.requests.enum.drop is0.cursor).length
  · have hcap := mainLoopGo_break ctx _ _ hbr
    have hcap2 : capReached ctx.cfg.maxPosts
        (mainLoopGo ctx (ctx.requests.enum.drop is0.cursor) (initState feat bug is0)).2.importState.importedIds.length = true := by
      rw [hlen]
      exact hcap
    intro e he
    rw [mainLoopGo_cap_stop ctx (ctx.requests.enum.drop (mainLoopGo ctx (ctx.requests.enum.drop is0.cursor) (initState feat bug is0)).2.importState.cursor) (initState (mainLoopGo ctx (ctx.requests.enum.drop is0.cursor) (initState feat bug is0)).2.existingFeaturePosts (mainLoopGo ctx (ctx.requests.enum.drop is0.cursor) (initState feat bug is0)).2.existingBugPosts (mainLoopGo ctx (ctx.requests.enum.drop is0.cursor) (initState feat bug is0)).2.importState) hcap2] at he
    simp at he
  · have hfull : (mainLoopGo ctx (ctx.requests.enum.drop is0.cursor) (initState feat bug is0)).1.length = (ctx.requests.enum.drop is0.cursor).length := by
      have := mainLoopGo_length_le ctx (ctx.requests.enum.drop is0.cursor)
        (initState feat bug is0)
      omega
    have hpre : ∀ p ∈ (ctx.requests.enum.drop (mainLoopGo ctx (ctx.requests.enum.drop is0.cursor) (initState feat bug is0)).2.importState.cursor),
        (processRow ctx (initState (mainLoopGo ctx (ctx.requests.enum.drop is0.cursor) (initState feat bug is0)).2.existingFeaturePosts (mainLoopGo ctx (ctx.requests.enum.drop is0.cursor) (initState feat bug is0)).2.existingBugPosts (mainLoopGo ctx (ctx.requests.enum.drop is0.cursor) (initState feat bug is0)).2.importState) p.2 (ctx.oracles p.1)).2.isSkip = true := by
      rintro ⟨i, req⟩ hp
      obtain ⟨hci, hgi⟩ := mem_enum_drop hp
      have hc0 : is0.cursor ≤ (mainLoopGo ctx (ctx.requests.enum.drop is0.cursor) (initState feat bug is0)).2.importState.cursor := by
        rcases mainLoopGo_cursor ctx (ctx.requests.enum.drop is0.cursor)
            (initState feat bug is0) with hcur | ⟨e2, he2, hcom, hcur⟩
        · rw [hcur]
          exact Nat.le_of_eq rfl
        · obtain ⟨_, _, hi2, _⟩ := mainLoopGo_entry ctx _ _ e2 he2
          have hle2 := (mem_enum_drop hi2).1
          rw [hcur]
          omega
      have hmem1 : ((i, req) : Nat × FeatureRequest) ∈
          ctx.requests.enum.drop is0.cursor :=
        enum_drop_mem (le_trans hc0 hci) hgi
      obtain ⟨e1, he1, hidx, hreq⟩ := mainLoopGo_full ctx _ _ hfull (i, req) hmem1
      obtain ⟨h1e, h2e, _, _⟩ := mainLoopGo_entry ctx _ _ e1 he1
      have hres : e1.result =
          (processRow ctx e1.stateBefore e1.request (ctx.oracles e1.index)).2 :=
        congrArg Prod.snd h1e
      have hs1 : SubState e1.stateBefore e1.stateAfter := by
        rw [h2e]
        exact substate_applyResult _ _ _
      have hs2 := mainLoopGo_entry_final ctx _ _ e1 he1
      have hsub : SubState e1.stateBefore (initState (mainLoopGo ctx (ctx.requests.enum.drop is0.cursor) (initState feat bug is0)).2.existingFeaturePosts (mainLoopGo ctx (ctx.requests.enum.drop is0.cursor) (initState feat bug is0)).2.existingBugPosts (mainLoopGo ctx (ctx.requests.enum.drop is0.cursor) (initState feat bug is0)).2.importState) := substate_trans hs1 hs2
      have hne : (processRow ctx e1.stateBefore e1.request
          (ctx.oracles e1.index)).2 ≠ RowResult.failed := by
        rw [← hres]
        exact h1 e1 he1
      have hcommit : ∀ id t c,
          (processRow ctx e1.stateBefore e1.request (ctx.oracles e1.index)).2 =
            RowResult.committed id t c →
          id ∈ (initState (mainLoopGo ctx (ctx.requests.enum.drop is0.cursor) (initState feat bug is0)).2.existingFeaturePosts (mainLoopGo ctx (ctx.requests.enum.drop is0.cursor) (initState feat bug is0)).2.existingBugPosts (mainLoopGo ctx (ctx.requests.enum.drop is0.cursor) (initState feat bug is0)).2.importState).importState.importedIds := by
        intro id t c hcom
        have hecom : e1.result = RowResult.committed id t c := by rw [hres, hcom]
        have hmemc : id ∈ committedList (mainLoopGo ctx (ctx.requests.enum.drop is0.cursor) (initState feat bug is0)).1 :=
          List.mem_filterMap.mpr ⟨e1, he1, by rw [hecom]; rfl⟩
        have hidseq : (mainLoopGo ctx (ctx.requests.enum.drop is0.cursor) (initState feat bug is0)).2.importState.importedIds =
            is0.importedIds ++ committedList (mainLoopGo ctx (ctx.requests.enum.drop is0.cursor) (initState feat bug is0)).1 := mainLoopGo_ids ctx _ _
        show id ∈ (mainLoopGo ctx (ctx.requests.enum.drop is0.cursor) (initState feat bug is0)).2.importState.importedIds
        rw [hidseq]
        exact List.mem_append_right _ hmemc
      have hstab := processRow_stable ctx e1.stateBefore (initState (mainLoopGo ctx (ctx.requests.enum.drop is0.cursor) (initState feat bug is0)).2.existingFeaturePosts (mainLoopGo ctx (ctx.requests.enum.drop is0.cursor) (initState feat bug is0)).2.existingBugPosts (mainLoopGo ctx (ctx.requests.enum.drop is0.cursor) (initState feat bug is0)).2.importState) e1.request
        (ctx.oracles e1.index) hsub hne hcommit
      rw [hreq, hidx] at hstab
      exact hstab
    obtain ⟨hfin2, hall⟩ := mainLoopGo_all_skip ctx _ _ hpre
    intro e he
    obtain ⟨h1e, _, _, _⟩ := mainLoopGo_entry ctx _ _ e he
    have hsk := (hall e he).1
    refine ⟨hsk, ?_⟩
    have h3 := congrArg Prod.snd h1e
    have hresk : (processRow ctx e.stateBefore e.request
        (ctx.oracles e.index)).2.isSkip = true := by
      rw [← h3]
      exact hsk
    have hcallsAI := processRow_skip_calls ctx e.stateBefore e.request
      (ctx.oracles e.index) hresk
    have h4 : e.calls = (processRow ctx e.stateBefore e.request
        (ctx.oracles e.index)).1 := congrArg Prod.fst h1e
    rw [h4]
    exact hcallsAI

/-- Witness for C6 at a concrete run: two rows with equal titles — the first
run commits the first and remote-duplicate-skips the second; the replay
processes the second row again and skips it with only an AI call. -/
theorem second_run_no_new_posts_witness :
    (∀ e ∈ (mainRun ctxRepeat [] [] ⟨0, []⟩).1, e.result ≠ RowResult.failed) ∧
    (∀ e ∈ (mainRun ctxRepeat
        (mainRun ctxRepeat [] [] ⟨0, []⟩).2.existingFeaturePosts
        (mainRun ctxRepeat [] [] ⟨0, []⟩).2.existingBugPosts
        (mainRun ctxRepeat [] [] ⟨0, []⟩).2.importState).1,
      e.result.isSkip = true ∧ ∀ call ∈ e.calls, call.isAi = true) :=
  ⟨by decide, second_run_no_new_posts ctxRepeat [] [] ⟨0, []⟩ (by decide)⟩

/-- C10: `generateItemId` hashes the bare concatenation of title and
created_at, so the records ("ab", created "c") and ("a", created "bc") —
distinct in both fields — feed the identical string "abc" to the digest and
receive the same ItemId under every digest function; running the loop over
the two rows, the first commits and the second is then silently skipped by
the local idempotency check (empty call trace) although it never got
posted at all. -/
theorem itemId_concat_collision (md5 : JsString → JsString) :
    (rowAB.title, rowAB.created_at) ≠ (rowABC.title, rowABC.created_at) ∧
    generateItemId md5 rowAB = generateItemId md5 rowABC ∧
    ((mainRun (ctxCollision md5) [] [] ⟨0, []⟩).1.map RowLog.result) =
      [RowResult.committed (md5 [97, 98, 99]) [97, 98] Cat.feature,
       RowResult.skippedLocal] ∧
    ((mainRun (ctxCollision md5) [] [] ⟨0, []⟩).1.map RowLog.calls) =
      [[Call.aiCategorize [97, 98] [], Call.userCreateOrUpdate [],
        Call.postCreate Cat.feature [97, 98] [] [99] [117]],
       []] := by
  refine ⟨by decide, rfl, ?_, ?_⟩ <;>
    simp [mainRun, initState, mainLoopGo, processRow, processRowBody,
      stageEnhance, stageCategorize, stagePublish, addVotesModel, castVotes,
      applyResult, setAdd, generateItemId, categorizeModel, capReached,
      ctxCollision, cfg0, rowAB, rowABC, okOracle, shuffleArray, shuffleGo,
      charSum, committedList]
